import Mathlib

/-!
Verification development for the Vuetify utility-class extraction pipeline.

Shallow embedding of the extension's core subsystem:
- the CSS artifact parser (`src/parser.ts`: `CSSParser.parseCSS`,
  `extractUtilities`, `extractUtilitiesFromRule`, `isUtilitySelector`,
  `extractClassNames`, `categorizeUtility`, `generateDescription`,
  `getSpacingDirection`),
- the two-tier cache (`cache.ts`, current file-storage variant:
  `VuetifyCache.get` / `set` / `isValid` / `invalidate` / `getCacheKey`,
  plus the older workspace-state variant's `getCacheKey` / `sanitizePath`),
- the orchestrator (`extractor.ts`: `VuetifyExtractor.extractAll`,
  `extractForWorkspace`, `getAllUtilities`, `ensureExtracted`, `clear`),
  including small transition systems for the coalescing of
  `ensureExtracted` and for the cancellation discipline of `extractAll`.

Conventions of the embedding:
- file contents are byte lists (`List Nat`); the SHA-256 digest of a file is
  modelled as a perfect (collision-free) digest, represented by the content
  itself, so "hash mismatch" is byte-list inequality;
- JavaScript `Map`s are association lists with `Map.set` semantics
  (replace in place, append new keys, iteration in insertion order);
- asynchronous methods that mutate `this` are state-passing functions;
- the durable storage facility (`context.storageUri` file storage) is
  assumed available, per the spec's external-interface assumptions.
-/

/-- JS `Map` lookup over an association list. -/

def lookupA {α β : Type} [DecidableEq α] : List (α × β) → α → Option β
  | [], _ => none
  | (k', v) :: t, k => if k' = k then some v else lookupA t k

/-- JS `Map.set` / object-property assignment: replace the value in place if
the key is present, otherwise append the binding at the end. -/

def insertA {α β : Type} [DecidableEq α] : List (α × β) → α → β → List (α × β)
  | [], k, v => [(k, v)]
  | (k', v') :: t, k, v => if k' = k then (k, v) :: t else (k', v') :: insertA t k v

/-- JS `Map.delete`: remove the bindings of a key, preserving the rest. -/

def eraseA {α β : Type} [DecidableEq α] : List (α × β) → α → List (α × β)
  | [], _ => []
  | (k', v) :: t, k => if k' = k then eraseA t k else (k', v) :: eraseA t k

/-- A utility-class record (`src/types.ts`, interface `UtilityClass`);
`properties` keeps JS object insertion order. -/

structure UtilityClass where
  name : String
  selector : String
  properties : List (String × String)
  category : String
  description : String
deriving DecidableEq, Repr

/-- A style rule as produced by the external grammar parser
(`csstree`), already rendered: selector text plus declarations. -/

structure Rule where
  selector : String
  decls : List (String × String)
deriving DecidableEq, Repr

/-- Naive scan for a contiguous occurrence of `pat` inside `s`. -/

def listIsInfix (pat : List Char) : List Char → Bool
  | [] => pat.isEmpty
  | c :: t => pat.isPrefixOf (c :: t) || listIsInfix pat t

/-- Substring test, modelling JS `String.prototype.includes` with a string
argument. -/

def strIncludes (s pat : String) : Bool := listIsInfix pat.data s.data

/-- `String.prototype.startsWith`, on the character lists. -/

def strStarts (s pat : String) : Bool := pat.data.isPrefixOf s.data

/-- The fixed utility-class name openings (`src/constants.ts`,
`UTILITY_PREFIXES`). -/

def UTILITY_PREFIXES : List String :=
  ["ma-", "mt-", "mr-", "mb-", "ml-", "ms-", "me-", "mx-", "my-",
   "pa-", "pt-", "pr-", "pb-", "pl-", "ps-", "pe-", "px-", "py-",
   "d-", "flex-", "align-", "justify-", "align-self-", "align-content-",
   "order-", "text-", "font-", "bg-", "elevation-", "rounded", "border-",
   "w-", "h-", "min-w-", "max-w-", "min-h-", "max-h-",
   "position-", "top-", "right-", "bottom-", "left-",
   "ga-", "gr-", "gc-", "overflow-", "float-", "opacity-"]

/-- `CSSParser.isUtilitySelector` (`src/parser.ts` lines 128-149): reject
combinators, attribute/pseudo-element selectors and non-class selectors,
then require a known utility name opening on the base class name. -/

def isUtilitySelector (selector : String) : Bool :=
  if selector.data.contains ' ' || selector.data.contains '>' ||
      selector.data.contains '+' then false
  else if selector.data.contains '[' || strIncludes selector "::" then false
  else if !(strStarts selector ".") then false
  else
    let baseClassName := (selector.data.takeWhile (fun c => !(c = ':'))).drop 1
    UTILITY_PREFIXES.any (fun p => p.data.isPrefixOf baseClassName)

/-- The character class `[a-zA-Z0-9_-]` of the class-name regex in
`CSSParser.extractClassNames`. -/

def classNameChar (c : Char) : Bool := c.isAlphanum || c = '_' || c = '-'

/-- Scanner equivalent to repeatedly applying the sticky regex
`\.([a-zA-Z0-9_-]+)` (`CSSParser.extractClassNames`): `cur = some acc`
means a `.` has been consumed and `acc` collects the name characters
matched so far. -/

def classScan : List Char → Option (List Char) → List String
  | [], none => []
  | [], some acc => if acc.isEmpty then [] else [String.mk acc]
  | c :: rest, some acc =>
    if classNameChar c then classScan rest (some (acc ++ [c]))
    else
      (if acc.isEmpty then [] else [String.mk acc]) ++
        (if c = '.' then classScan rest (some []) else classScan rest none)
  | c :: rest, none =>
    if c = '.' then classScan rest (some []) else classScan rest none

/-- `CSSParser.extractClassNames` (`src/parser.ts` lines 154-164): all class
name tokens appearing in the selector text. -/

def extractClassNames (selector : String) : List String :=
  classScan selector.data none

/-- Anchored test for the regex `^[mp][atblrsxye]-` used by
`CSSParser.categorizeUtility`. -/

def spacingStart (className : String) : Bool :=
  match className.data with
  | c0 :: c1 :: c2 :: _ =>
    (c0 = 'm' || c0 = 'p') &&
      (c1 = 'a' || c1 = 't' || c1 = 'b' || c1 = 'l' || c1 = 'r' ||
        c1 = 's' || c1 = 'x' || c1 = 'y' || c1 = 'e') && c2 = '-'
  | _ => false

/-- Anchored test for the regex `^g[arc]-` used by
`CSSParser.categorizeUtility`. -/

def gapStart (className : String) : Bool :=
  match className.data with
  | c0 :: c1 :: c2 :: _ =>
    c0 = 'g' && (c1 = 'a' || c1 = 'r' || c1 = 'c') && c2 = '-'
  | _ => false

/-- `CSSParser.categorizeUtility` (`src/parser.ts` lines 169-202):
fixed-precedence categorization of a class name. Category values are the
string values of the `UtilityCategory` enum (`src/types.ts`). -/

def categorizeUtility (className : String) : String :=
  if spacingStart className then "spacing"
  else if strStarts className "d-" then "display"
  else if ["flex-", "align-", "justify-", "order-"].any (fun p => strStarts className p) then
    "flexbox"
  else if ["text-", "font-"].any (fun p => strStarts className p) then "typography"
  else if strStarts className "bg-" then "background"
  else if strStarts className "elevation-" then "elevation"
  else if ["rounded", "border-"].any (fun p => strStarts className p) then "border"
  else if ["w-", "h-", "min-", "max-"].any (fun p => strStarts className p) then "sizing"
  else if ["position-", "top-", "right-", "bottom-", "left-"].any
      (fun p => strStarts className p) then "position"
  else if gapStart className then "gap"
  else "other"

/-- `CSSParser.getSpacingDirection` (`src/parser.ts` lines 260-271). The
source tests the unanchored regexes `m[ap]a-`, `m[ap]t-`, and so on: a
literal `m`, then `a` or `p`, then the direction letter, then a dash; so
each test is a substring search for the four-character pattern. -/

def getSpacingDirection (className : String) : String :=
  if strIncludes className "maa-" || strIncludes className "mpa-" then "on all sides"
  else if strIncludes className "mat-" || strIncludes className "mpt-" then "on top"
  else if strIncludes className "mar-" || strIncludes className "mpr-" then "on right"
  else if strIncludes className "mab-" || strIncludes className "mpb-" then "on bottom"
  else if strIncludes className "mal-" || strIncludes className "mpl-" then "on left"
  else if strIncludes className "mas-" || strIncludes className "mps-" then
    "on start (inline-start)"
  else if strIncludes className "mae-" || strIncludes className "mpe-" then
    "on end (inline-end)"
  else if strIncludes className "max-" || strIncludes className "mpx-" then "horizontally"
  else if strIncludes className "may-" || strIncludes className "mpy-" then "vertically"
  else ""

/-- JS `x || y || ... || ''` over possibly-missing strings: first value
that is present and non-empty, else the empty string. -/

def firstTruthy : List (Option String) → String
  | [] => ""
  | some s :: t => if s = "" then firstTruthy t else s
  | none :: t => firstTruthy t

/-- `Object.entries(properties).map(([k, v]) => k + ": " + v).join(", ")`. -/

def joinEntries (properties : List (String × String)) : String :=
  String.intercalate ", " (properties.map (fun kv => kv.1 ++ ": " ++ kv.2))

/-- `CSSParser.generateDescription` (`src/parser.ts` lines 207-255). -/

def generateDescription (className : String) (properties : List (String × String)) : String :=
  let category := categorizeUtility className
  if category = "spacing" then
    let propValue := firstTruthy [(properties.head?).map (fun kv => kv.2)]
    let direction := getSpacingDirection className
    let ty := if strStarts className "m" then "margin" else "padding"
    "Apply " ++ ty ++ " " ++ propValue ++ " " ++ direction
  else if category = "display" then
    "Set display: " ++ firstTruthy [lookupA properties "display"]
  else if category = "flexbox" then
    if strStarts className "flex-" then "Flex property: " ++ joinEntries properties
    else if strStarts className "justify-" then
      "Justify content: " ++ firstTruthy [lookupA properties "justify-content"]
    else if strStarts className "align-" then
      "Align items: " ++
        firstTruthy [lookupA properties "align-items", lookupA properties "align-content"]
    else "Flexbox utility"
  else if category = "typography" then
    if strStarts className "text-" then "Text utility: " ++ joinEntries properties
    else "Typography utility"
  else if category = "elevation" then "Material elevation shadow"
  else
    match properties.head? with
    | some kv => kv.1 ++ ": " ++ kv.2
    | none => "Vuetify utility class"

/-- The declaration walk of `CSSParser.extractUtilitiesFromRule` (lines
94-100): `properties[decl.property] = value` over a JS object. -/

def declProps (r : Rule) : List (String × String) :=
  r.decls.foldl (fun acc pv => insertA acc pv.1 pv.2) []

/-- The per-class-name loop of `CSSParser.extractUtilitiesFromRule` (lines
105-122): skip names already seen, otherwise record the name as seen and
emit a `UtilityClass`. -/

def processNames (selector : String) (properties : List (String × String)) :
    List String → List String → List UtilityClass × List String
  | [], seen => ([], seen)
  | n :: ns, seen =>
    if n ∈ seen then processNames selector properties ns seen
    else
      let u : UtilityClass :=
        { name := n, selector := selector, properties := properties,
          category := categorizeUtility n, description := generateDescription n properties }
      let (us, seen') := processNames selector properties ns (n :: seen)
      (u :: us, seen')

/-- `CSSParser.extractUtilitiesFromRule` (`src/parser.ts` lines 82-123). -/

def extractUtilitiesFromRule (r : Rule) (seen : List String) :
    List UtilityClass × List String :=
  if isUtilitySelector r.selector then
    processNames r.selector (declProps r) (extractClassNames r.selector) seen
  else ([], seen)

/-- The rule walk of `CSSParser.extractUtilities` (lines 65-77), with the
seen-name set threaded across the whole walk. -/

def extractUtilitiesGo : List Rule → List String → List UtilityClass × List String
  | [], seen => ([], seen)
  | r :: rs, seen =>
    let (us, seen') := extractUtilitiesFromRule r seen
    let (us', seen'') := extractUtilitiesGo rs seen'
    (us ++ us', seen'')

/-- `CSSParser.extractUtilities` (`src/parser.ts` lines 65-77). -/

def extractUtilities (rules : List Rule) : List UtilityClass :=
  (extractUtilitiesGo rules []).1

/-- `src/constants.ts`: `MAX_CSS_FILE_SIZE_MB = 50`. -/

def MAX_CSS_FILE_SIZE_MB : Nat := 50

/-- `src/constants.ts`: `MAX_CSS_FILE_SIZE_BYTES = MAX_CSS_FILE_SIZE_MB * 1024 * 1024`. -/

def MAX_CSS_FILE_SIZE_BYTES : Nat := MAX_CSS_FILE_SIZE_MB * 1024 * 1024

deriving instance DecidableEq for Except

/-- The error conditions `CSSParser.parseCSS` can raise, per the failure
taxonomy: invalid path argument, stat failure (file absent), the size
ceiling, and a grammar-parser syntax failure. -/

inductive ParseError where
  | invalidPath
  | notFound
  | sizeExceeded
  | malformed
deriving DecidableEq, Repr

/-- The filesystem facility: a path resolves to file bytes or is absent. -/

def FileSys : Type := String → Option (List Nat)

/-- The external grammar parser (`csstree.parse` plus the rule walk's view
of the tree): file bytes to a rule list, or a syntax failure. -/

def Grammar : Type := List Nat → Except Unit (List Rule)

/-- Result of `CSSParser.parseCSS`, instrumented with whether the external
grammar parser was invoked and whether the file content was read in full. -/

structure ParseOutcome where
  result : Except ParseError (List UtilityClass)
  grammarInvoked : Bool
  fullReadDone : Bool
deriving DecidableEq, Repr

/-- `CSSParser.parseCSS` (`src/parser.ts` lines 19-60): reject an invalid
path, stat the file, reject sizes over the ceiling before reading, then
read, run the grammar parser, and extract utilities. -/

def parseCSSInstr (g : Grammar) (fs : FileSys) (cssFilePath : String) : ParseOutcome :=
  if cssFilePath = "" then ⟨.error .invalidPath, false, false⟩
  else
    match fs cssFilePath with
    | none => ⟨.error .notFound, false, false⟩
    | some content =>
      if content.length > MAX_CSS_FILE_SIZE_BYTES then ⟨.error .sizeExceeded, false, false⟩
      else
        match g content with
        | .error _ => ⟨.error .malformed, true, true⟩
        | .ok rules => ⟨.ok (extractUtilities rules), true, true⟩

/-- A cache entry (`src/types.ts`, interface `CacheEntry`). The stored
`hash` is `undefined` when `calculateFileHash` failed at `set` time. -/

structure CacheEntry where
  version : String
  timestamp : Nat
  utilities : List UtilityClass
  hash : Option (List Nat)
deriving DecidableEq, Repr

/-- The two layers of `VuetifyCache`: the in-memory `Map` keyed by
workspace path, and the durable file storage keyed by the cache filename,
which `getCacheKey` derives injectively from (workspace path, version) —
represented here by the pair itself, under the perfect-digest
abstraction. -/

structure CacheState where
  mem : List (String × CacheEntry)
  disk : List ((String × String) × CacheEntry)
deriving DecidableEq, Repr

/-- `VuetifyCache.calculateFileHash`: SHA-256 of the file bytes, or
`undefined` when the read fails; under the perfect-digest abstraction the
digest is the content itself. -/

def calculateFileHash (fs : FileSys) (filePath : String) : Option (List Nat) :=
  fs filePath

/-- `VuetifyCache.readFromDisk` for a (workspace path, version) key. -/

def readFromDisk (c : CacheState) (workspacePath version : String) : Option CacheEntry :=
  lookupA c.disk (workspacePath, version)

/-- The guard `memEntry && memEntry.version === version` of
`VuetifyCache.get`. -/

def memHit (c : CacheState) (workspacePath version : String) : Option CacheEntry :=
  match lookupA c.mem workspacePath with
  | some e => if e.version = version then some e else none
  | none => none

/-- The guard `diskEntry && diskEntry.version === version` of
`VuetifyCache.get`. -/

def diskHit (c : CacheState) (workspacePath version : String) : Option CacheEntry :=
  match readFromDisk c workspacePath version with
  | some e => if e.version = version then some e else none
  | none => none

/-- `VuetifyCache.invalidate`: drop the memory entry and every durable
entry whose filename starts with this workspace path's digest, i.e. all
its versions. -/

def invalidateCache (c : CacheState) (workspacePath : String) : CacheState :=
  { mem := eraseA c.mem workspacePath,
    disk := c.disk.filter (fun kv => !(decide (kv.1.1 = workspacePath))) }

/-- `VuetifyCache.get` called without a `cssFilePath` (as `isValid` does):
memory layer first, then the durable layer, restoring a durable hit into
memory. No validation is performed on this path. -/

def cacheGetNoPath (c : CacheState) (workspacePath version : String) :
    Option (List UtilityClass) × CacheState :=
  match memHit c workspacePath version with
  | some memEntry => (some memEntry.utilities, c)
  | none =>
    match diskHit c workspacePath version with
    | some diskEntry =>
      (some diskEntry.utilities, { c with mem := insertA c.mem workspacePath diskEntry })
    | none => (none, c)

/-- `VuetifyCache.isValid` (`cache.ts` lines 126-148): an unvalidated `get`
must hit, the durable entry must exist, the current file hash must be
computable, and it must equal the durable entry's stored hash. -/

def isValidC (fs : FileSys) (c : CacheState) (workspacePath version cssFilePath : String) :
    Bool × CacheState :=
  let (cached, c1) := cacheGetNoPath c workspacePath version
  match cached with
  | none => (false, c1)
  | some _ =>
    match readFromDisk c1 workspacePath version with
    | none => (false, c1)
    | some diskEntry =>
      match calculateFileHash fs cssFilePath with
      | none => (false, c1)
      | some h => (decide (some h = diskEntry.hash), c1)

/-- `VuetifyCache.get` (`cache.ts` lines 52-95): memory layer first; on a
version match with a `cssFilePath` supplied, re-verify the stored hash via
`isValid` — a mismatch invalidates and misses; otherwise fall through to
the durable layer, validate likewise, and restore a hit into memory. -/

def cacheGet (fs : FileSys) (c : CacheState) (workspacePath version : String)
    (cssFilePath : Option String) : Option (List UtilityClass) × CacheState :=
  match memHit c workspacePath version with
  | some memEntry =>
    match cssFilePath with
    | some css =>
      let (valid, c1) := isValidC fs c workspacePath version css
      if valid then (some memEntry.utilities, c1)
      else (none, invalidateCache c1 workspacePath)
    | none => (some memEntry.utilities, c)
  | none =>
    match diskHit c workspacePath version with
    | some diskEntry =>
      match cssFilePath with
      | some css =>
        let (valid, c1) := isValidC fs c workspacePath version css
        if valid then
          (some diskEntry.utilities, { c1 with mem := insertA c1.mem workspacePath diskEntry })
        else (none, invalidateCache c1 workspacePath)
      | none =>
        (some diskEntry.utilities, { c with mem := insertA c.mem workspacePath diskEntry })
    | none => (none, c)

/-- `VuetifyCache.set` (`cache.ts` lines 100-121): hash the artifact, then
write the entry to both layers, overwriting unconditionally. -/

def cacheSet (fs : FileSys) (c : CacheState) (workspacePath version : String)
    (utilities : List UtilityClass) (cssFilePath : String) (now : Nat) : CacheState :=
  let hash := calculateFileHash fs cssFilePath
  let entry : CacheEntry :=
    { version := version, timestamp := now, utilities := utilities, hash := hash }
  { mem := insertA c.mem workspacePath entry,
    disk := insertA c.disk (workspacePath, version) entry }

/-- `VuetifyCache.clear`: empty the memory layer and delete every durable
entry in the cache's namespace. -/

def cacheClear (_c : CacheState) : CacheState := { mem := [], disk := [] }

/-- A located installation (`src/types.ts`, interface
`VuetifyInstallation`). -/

structure Installation where
  packagePath : String
  cssPath : String
  version : String
  workspacePath : String
deriving DecidableEq, Repr

/-- The mutable fields of `VuetifyExtractor` touched by extraction:
`installations`, `utilities` (the Index), `isExtracted`,
`allUtilitiesCache` (the memo of `getAllUtilities`) and the owned
`VuetifyCache`. -/

structure ExtractorState where
  installations : List (String × Installation)
  utilities : List (String × List UtilityClass)
  isExtracted : Bool
  allUtilitiesCache : Option (List UtilityClass)
  cache : CacheState
deriving DecidableEq, Repr

/-- The extractor state at activation. -/

def initialExtractorState : ExtractorState :=
  { installations := [], utilities := [], isExtracted := false,
    allUtilitiesCache := none, cache := { mem := [], disk := [] } }

/-- `VuetifyExtractor.extractForWorkspace` (`extractor.ts` lines 94-130):
unless forced, consult the validated cache and adopt a hit into the Index;
on a miss parse, write the cache, adopt, and clear the `getAllUtilities`
memo. Returns the outcome (a throw becomes `.error`), the state at return
or throw time, and the number of `parseCSS` invocations. -/

def extractForWorkspace (g : Grammar) (fs : FileSys) (s : ExtractorState)
    (inst : Installation) (forceRefresh : Bool) (now : Nat) :
    Except ParseError Unit × ExtractorState × Nat :=
  let parsePath : ExtractorState → Except ParseError Unit × ExtractorState × Nat :=
    fun s1 =>
      match (parseCSSInstr g fs inst.cssPath).result with
      | .error e => (.error e, s1, 1)
      | .ok utilities =>
        let c2 := cacheSet fs s1.cache inst.workspacePath inst.version utilities
          inst.cssPath now
        (.ok (),
          { s1 with
            cache := c2,
            utilities := insertA s1.utilities inst.workspacePath utilities,
            installations := insertA s1.installations inst.workspacePath inst,
            allUtilitiesCache := none }, 1)
  if forceRefresh then parsePath s
  else
    match cacheGet fs s.cache inst.workspacePath inst.version (some inst.cssPath) with
    | (some cached, c1) =>
      (.ok (),
        { s with
          cache := c1,
          utilities := insertA s.utilities inst.workspacePath cached,
          installations := insertA s.installations inst.workspacePath inst }, 0)
    | (none, c1) => parsePath { s with cache := c1 }

/-- The per-workspace loop of `VuetifyExtractor.extractAll` (lines 64-76):
each root is processed in turn; a per-root throw is caught by
`handleExtractionError` (a notification) and the loop continues. Returns
the final state, the total number of `parseCSS` invocations, and the
workspace paths whose processing failed. -/

def processRoots (g : Grammar) (fs : FileSys) (s : ExtractorState) :
    List Installation → Bool → Nat → ExtractorState × Nat × List String
  | [], _, _ => (s, 0, [])
  | inst :: rest, forceRefresh, now =>
    match extractForWorkspace g fs s inst forceRefresh now with
    | (outcome, s1, k) =>
      let (s2, n, failed) := processRoots g fs s1 rest forceRefresh now
      (s2, k + n,
        (match outcome with
         | .error _ => [inst.workspacePath]
         | .ok _ => []) ++ failed)

/-- `VuetifyExtractor.extractAll` (lines 34-89) along its non-cancelled
execution: find installations (given here as the deterministic locator
result for `fs`), handle the empty case, process every root, and mark
extraction complete. Cancellation is modelled separately
(`OrchState`). -/

def runExtractAll (g : Grammar) (fs : FileSys) (insts : List Installation)
    (s : ExtractorState) (forceRefresh : Bool) (now : Nat) :
    ExtractorState × Nat × List String :=
  if insts.isEmpty then ({ s with isExtracted := true }, 0, [])
  else
    let (s1, n, failed) := processRoots g fs s insts forceRefresh now
    ({ s1 with isExtracted := true }, n, failed)

/-- `VuetifyExtractor.getAllUtilities`, memoized variant (`extractor.ts`
lines 148-161): serve the memo when present, otherwise concatenate the
Index values in map order and memoize. -/

def getAllUtilities (s : ExtractorState) : List UtilityClass × ExtractorState :=
  match s.allUtilitiesCache with
  | some cached => (cached, s)
  | none =>
    let all := (s.utilities.map (fun kv => kv.2)).flatten
    (all, { s with allUtilitiesCache := some all })

/-- The naive `VuetifyExtractor.getAllUtilities` (the repository's earlier
revision, lines 420-426 of the extractor source): recompute the
concatenation of the Index values on every call. -/

def getAllUtilitiesNaive (s : ExtractorState) : List UtilityClass :=
  (s.utilities.map (fun kv => kv.2)).flatten

/-- `VuetifyExtractor.clear` (lines 191-199). -/

def clearExtractor (s : ExtractorState) : ExtractorState :=
  { installations := [], utilities := [], isExtracted := false,
    allUtilitiesCache := none, cache := cacheClear s.cache }

/-- `VuetifyCache.sanitizePath` of the repository's earlier cache revision
(`src/cache.ts` lines 168-170): replace every character outside
`[a-zA-Z0-9]` by a dash. -/

def sanitizePath (path : String) : String :=
  String.mk (path.data.map (fun c => if c.isAlphanum then c else '-'))

/-- `VuetifyCache.getCacheKey` of the earlier cache revision
(`src/cache.ts` lines 160-163): naive character-substitution key. -/

def getCacheKeyNaive (workspacePath version : String) : String :=
  "vuetify-cache-" ++ sanitizePath workspacePath ++ "-" ++ version

/-- `VuetifyCache.getCacheKey`, current revision (cache source lines
179-182): a fixed-length digest of the full workspace path (the first 16
hex characters of its SHA-256, abstracted here as the `pathHash`
parameter) combined with the literal version string. -/

def getCacheKey (pathHash : String → String) (workspacePath version : String) : String :=
  "vuetify-cache-" ++ pathHash workspacePath ++ "-" ++ version ++ ".json"

/-- Result of one `ensureExtracted` call: return immediately (already
extracted), or await the promise of the extraction run with the given
identifier. -/

inductive EnsureOutcome where
  | immediate
  | awaits (run : Nat)
deriving DecidableEq, Repr

/-- The fields of `VuetifyExtractor` driving `ensureExtracted`
(`extractor.ts` lines 166-186): the completion flag, the cached in-flight
promise (as the identifier of the run it belongs to), a fresh-identifier
counter, and the identifiers of every `extractAll` execution started by
`ensureExtracted`, in order. -/

structure CoalesceState where
  isExtracted : Bool
  extractionPromise : Option Nat
  nextRunId : Nat
  startedRuns : List Nat
deriving DecidableEq, Repr

/-- The coalescing state at activation. -/

def initialCoalesceState : CoalesceState :=
  { isExtracted := false, extractionPromise := none, nextRunId := 0, startedRuns := [] }

/-- One `ensureExtracted` call (`extractor.ts` lines 166-186). The body is
synchronous in JS, hence one atomic step: return immediately if already
extracted; await the existing promise if one is in flight; otherwise start
an `extractAll` execution and cache (and await) its promise. -/

def ensureStep (s : CoalesceState) : EnsureOutcome × CoalesceState :=
  if s.isExtracted then (.immediate, s)
  else
    match s.extractionPromise with
    | some r => (.awaits r, s)
    | none =>
      (.awaits s.nextRunId,
        { s with
          extractionPromise := some s.nextRunId,
          nextRunId := s.nextRunId + 1,
          startedRuns := s.startedRuns ++ [s.nextRunId] })

/-- Successful completion of extraction run `r`: `extractAll` sets
`isExtracted` before its promise resolves, and the `finally` attached by
`ensureExtracted` clears the cached promise; every caller awaiting `r`
resolves at this event and not before. -/

def completeStep (s : CoalesceState) (r : Nat) : CoalesceState :=
  if s.extractionPromise = some r then
    { s with isExtracted := true, extractionPromise := none }
  else s

/-- A burst of `ensureExtracted` calls with no completion in between:
the list of outcomes and the final state. -/

def ensureCalls : Nat → CoalesceState → List EnsureOutcome × CoalesceState
  | 0, s => ([], s)
  | n + 1, s =>
    let (o, s1) := ensureStep s
    let (os, s2) := ensureCalls n s1
    (o :: os, s2)

/-- One `extractAll` activation as seen by the cancellation discipline: its
`AbortController`'s signal, and whether the async function has returned
(running its `finally`). -/

structure ARun where
  aborted : Bool
  finished : Bool
deriving DecidableEq, Repr

/-- The extraction status of the claimed orchestrator state machine. -/

inductive ExtStatus where
  | neverRun
  | running
  | completed
deriving DecidableEq, Repr

/-- State of the cancellation discipline of `extractAll` (`extractor.ts`
lines 34-89): all runs ever started (indexed by position), the identifier
held by `this.abortController` (if any), and the extraction status. -/

structure OrchState where
  runs : List ARun
  abortController : Option Nat
  status : ExtStatus
deriving DecidableEq, Repr

/-- The orchestrator cancellation state at activation. -/

def initialOrchState : OrchState :=
  { runs := [], abortController := none, status := .neverRun }

/-- Events of the cancellation discipline: a new `extractAll` call starts
(synchronous prefix of lines 34-43), a run observes its aborted signal at
a suspension point and returns early (lines 51-54 or 66-69, then the
`finally` of line 87), or a non-cancelled run completes (lines 78-79, then
the `finally`). -/

inductive OrchEvent where
  | start
  | earlyReturn (i : Nat)
  | finish (i : Nat)
deriving DecidableEq, Repr

/-- One step of the cancellation discipline. `start` aborts the signal
held in `this.abortController` (if any) and installs a fresh controller
for the new run. `earlyReturn i` and `finish i` both run the `finally`
block, which sets `this.abortController = null` unconditionally. -/

def orchStep (s : OrchState) : OrchEvent → OrchState
  | .start =>
    let runs1 :=
      match s.abortController with
      | some i =>
        match s.runs.get? i with
        | some r => s.runs.set i { r with aborted := true }
        | none => s.runs
      | none => s.runs
    { runs := runs1 ++ [{ aborted := false, finished := false }],
      abortController := some runs1.length,
      status := .running }
  | .earlyReturn i =>
    match s.runs.get? i with
    | some r =>
      if r.aborted && !r.finished then
        { s with runs := s.runs.set i { r with finished := true }, abortController := none }
      else s
    | none => s
  | .finish i =>
    match s.runs.get? i with
    | some r =>
      if !r.aborted && !r.finished then
        { runs := s.runs.set i { r with finished := true },
          abortController := none,
          status := .completed }
      else s
    | none => s

/-- Execution of a list of cancellation-discipline events. -/

def orchExec (events : List OrchEvent) : OrchState :=
  events.foldl orchStep initialOrchState

/-- The number of extractAll runs that are in flight and not cancelled. -/

def activeRuns (s : OrchState) : Nat :=
  (s.runs.filter (fun r => !r.aborted && !r.finished)).length

/-- Whether rule `r` is eligible and introduces class name `n`
(used to state first-wins for the dedup walk). -/

def eligibleFor (n : String) (r : Rule) : Bool :=
  isUtilitySelector r.selector && decide (n ∈ extractClassNames r.selector)

/-- C9 witness input: the concrete filesystem is irrelevant here. -/

def c9props : List (String × String) := [("padding", "16px")]

/-- C7 concrete 51 MiB artifact content. -/

def c7Big : List Nat := List.replicate 53477376 0

/-- C7 concrete filesystem: one oversized artifact. -/

def c7Fs : FileSys := fun p => if p = "/w/big.css" then some c7Big else none

/-- C7 concrete grammar parser (never reached). -/

def c7Grammar : Grammar := fun _ => .ok []

/-- C8 concrete digest function, injective on the two example paths. -/

def c8Hash : String → String :=
  fun s => if s = "/a/b" then "0000000000000000" else "1111111111111111"

/-- The coalescing state reached after the first `ensureExtracted` call
from activation: run 0 in flight, its promise cached. -/

def coalesceAfterFirst : CoalesceState :=
  { isExtracted := false, extractionPromise := some 0, nextRunId := 1, startedRuns := [0] }

/-- C1 witness data: a cache freshly written while the artifact read
`[1, 2]`. -/

def c1Fs0 : FileSys := fun p => if p = "/w/a.css" then some [1, 2] else none

/-- C1 witness data: the same artifact path now reads `[3]`. -/

def c1Fs1 : FileSys := fun p => if p = "/w/a.css" then some [3] else none

/-- C1 witness installation. -/

def c1Inst : Installation :=
  { packagePath := "/w/node_modules/vuetify", cssPath := "/w/a.css",
    version := "3.1.0", workspacePath := "/w" }

/-- C1 witness records cached for the root. -/

def c1Records : List UtilityClass :=
  [{ name := "ma-2", selector := ".ma-2", properties := [("margin", "8px")],
     category := "spacing", description := "Apply margin 8px " }]

/-- C1 witness grammar parser. -/

def c1Grammar : Grammar := fun _ => .ok []

/-- C1 witness extractor state, holding the freshly written cache. -/

def c1State : ExtractorState :=
  { initialExtractorState with
    cache := cacheSet c1Fs0 { mem := [], disk := [] } "/w" "3.1.0" c1Records "/w/a.css" 5 }

/-- C10 scenario: the records held for the root by the durable cache of a
previous session. -/

def c10Records : List UtilityClass :=
  [{ name := "ma-2", selector := ".ma-2", properties := [("margin", "8px")],
     category := "spacing", description := "Apply margin 8px " }]

/-- C10 scenario: durable entry surviving from a previous session, whose
stored hash matches the current artifact bytes. -/

def c10Entry : CacheEntry :=
  { version := "3.1.0", timestamp := 0, utilities := c10Records, hash := some [1, 2] }

/-- C10 scenario: extractor state at activation of a new session — empty
maps, `allUtilitiesCache` unset, durable cache populated. -/

def c10State : ExtractorState :=
  { initialExtractorState with cache := { mem := [], disk := [(("/w", "3.1.0"), c10Entry)] } }

/-- C10 scenario filesystem: the artifact still reads `[1, 2]`. -/

def c10Fs : FileSys := fun p => if p = "/w/a.css" then some [1, 2] else none

/-- C10 scenario grammar parser (never consulted: the root hits). -/

def c10Grammar : Grammar := fun _ => .ok []

/-- C10 scenario installation. -/

def c10Inst : Installation :=
  { packagePath := "/w/node_modules/vuetify", cssPath := "/w/a.css",
    version := "3.1.0", workspacePath := "/w" }

/-- C6 demo input: two rules that both introduce class name `ma-2`, with
different declaration blocks. -/

def c6Rules : List Rule :=
  [{ selector := ".ma-2", decls := [("margin", "8px")] },
   { selector := ".ma-2", decls := [("margin", "999px")] }]

/-- C6 demo output: the single record the parser emits for `c6Rules`. -/

def c6Record : UtilityClass :=
  { name := "ma-2", selector := ".ma-2", properties := [("margin", "8px")],
    category := "spacing", description := "Apply margin 8px " }

/-- C5 witness filesystem: three roots with distinct artifacts. -/

def c5Fs : FileSys := fun p =>
  if p = "/a/a.css" then some [1]
  else if p = "/f/f.css" then some [2]
  else if p = "/b/b.css" then some [3]
  else none

/-- C5 witness grammar parser: syntax failure exactly on the middle
root's artifact bytes. -/

def c5Grammar : Grammar := fun content => if content = [2] then .error () else .ok []

/-- C5 witness: first (healthy) root. -/

def c5InstA : Installation :=
  { packagePath := "/a/nm/vuetify", cssPath := "/a/a.css", version := "3.1.0",
    workspacePath := "/a" }

/-- C5 witness: failing root. -/

def c5InstF : Installation :=
  { packagePath := "/f/nm/vuetify", cssPath := "/f/f.css", version := "3.1.0",
    workspacePath := "/f" }

/-- C5 witness: last (healthy) root. -/

def c5InstB : Installation :=
  { packagePath := "/b/nm/vuetify", cssPath := "/b/b.css", version := "3.1.0",
    workspacePath := "/b" }

/-- A root is served coherently by state `s`: the memory layer holds a
version-matching entry, the durable layer holds an entry whose stored hash
matches the current artifact bytes, and the Index and installations map
hold exactly that entry's records and the installation. -/

def CoherentFor (fs : FileSys) (s : ExtractorState) (inst : Installation) : Prop :=
  ∃ E D b,
    lookupA s.cache.mem inst.workspacePath = some E ∧ E.version = inst.version ∧
    lookupA s.cache.disk (inst.workspacePath, inst.version) = some D ∧
    fs inst.cssPath = some b ∧ D.hash = some b ∧
    lookupA s.utilities inst.workspacePath = some E.utilities ∧
    lookupA s.installations inst.workspacePath = some inst

/-- C4 counterexample data: the single root's artifact. -/

def c4Fs : FileSys := fun p => if p = "/w/a.css" then some [1, 2] else none

/-- C4 counterexample grammar parser: the artifact is malformed. -/

def c4BadGrammar : Grammar := fun _ => .error ()

/-- C4 witness grammar parser: the artifact parses into one rule. -/

def c4OkGrammar : Grammar := fun _ => .ok [{ selector := ".ma-2", decls := [("margin", "8px")] }]

/-- C4 installation. -/

def c4Inst : Installation :=
  { packagePath := "/w/node_modules/vuetify", cssPath := "/w/a.css",
    version := "3.1.0", workspacePath := "/w" }

theorem lookupA_insertA_self {α β : Type} [DecidableEq α] (l : List (α × β)) (k : α) (v : β) :
    lookupA (insertA l k v) k = some v := by
  induction l with
  | nil => simp [insertA, lookupA]
  | cons hd t ih =>
    obtain ⟨a, b⟩ := hd
    by_cases h : a = k
    · simp [insertA, h, lookupA]
    · simp [insertA, h, lookupA, ih]

theorem lookupA_insertA_ne {α β : Type} [DecidableEq α] (l : List (α × β)) (k k' : α) (v : β)
    (h : k' ≠ k) : lookupA (insertA l k v) k' = lookupA l k' := by
  have hkk : ¬ (k = k') := by
    intro h'
    exact h h'.symm
  induction l with
  | nil => simp [insertA, lookupA, hkk]
  | cons hd t ih =>
    obtain ⟨a, b⟩ := hd
    by_cases hk : a = k
    · subst hk
      simp [insertA, lookupA, hkk]
    · simp [insertA, hk, lookupA, ih]

theorem insertA_self {α β : Type} [DecidableEq α] (l : List (α × β)) (k : α) (v : β)
    (h : lookupA l k = some v) : insertA l k v = l := by
  induction l with
  | nil => simp [lookupA] at h
  | cons hd t ih =>
    obtain ⟨a, b⟩ := hd
    by_cases hk : a = k
    · subst hk
      simp [lookupA] at h
      simp [insertA, h]
    · simp [lookupA, hk] at h
      simp [insertA, hk, ih h]

theorem lookupA_eraseA_self {α β : Type} [DecidableEq α] (l : List (α × β)) (k : α) :
    lookupA (eraseA l k) k = none := by
  induction l with
  | nil => simp [eraseA, lookupA]
  | cons hd t ih =>
    obtain ⟨a, b⟩ := hd
    by_cases hk : a = k
    · simp [eraseA, hk, ih]
    · simp [eraseA, hk, lookupA, ih]

theorem lookupA_eraseA_ne {α β : Type} [DecidableEq α] (l : List (α × β)) (k k' : α)
    (h : k' ≠ k) : lookupA (eraseA l k) k' = lookupA l k' := by
  induction l with
  | nil => simp [eraseA]
  | cons hd t ih =>
    obtain ⟨a, b⟩ := hd
    by_cases hk : a = k
    · subst hk
      have hak : ¬ (a = k') := by
        intro h'
        exact h h'.symm
      simp [eraseA, lookupA, hak, ih]
    · simp [eraseA, hk, lookupA, ih]

/-- C9: evaluation of categorization and description generation at the
spec's examples. `pa-4` is categorized as spacing and `d-flex` /
`elevation-8` as display / elevation, and the `pa-4` description does
mention "padding"; but the generated description is "Apply padding 16px "
with an empty direction — it does not mention "on all sides", because the
direction regexes test `m[ap]a-` (substring `maa-` or `mpa-`) instead of
an anchored `[mp]a-`, so no real spacing class name ever matches. -/

theorem categorize_describe_eval :
    categorizeUtility "pa-4" = "spacing" ∧
    categorizeUtility "d-flex" = "display" ∧
    categorizeUtility "elevation-8" = "elevation" ∧
    generateDescription "pa-4" c9props = "Apply padding 16px " ∧
    strIncludes (generateDescription "pa-4" c9props) "padding" = true ∧
    strIncludes (generateDescription "pa-4" c9props) "on all sides" = false ∧
    getSpacingDirection "pa-4" = "" := by
  decide

/-- C3: evaluation of the cancellation discipline at the failing
interleaving. Run 0 starts; run 1 starts and aborts run 0's signal; run 0
resumes at a signal check, returns early, and its `finally` unconditionally
nulls `this.abortController` — which at that moment holds run 1's
controller; a third `extractAll` call then finds `abortController` null and
starts without cancelling run 1, leaving runs 1 and 2 simultaneously in
flight and non-cancelled, contradicting the claimed invariant that at no
reachable point are two non-cancelled runs in flight. -/

theorem extractAll_two_active_runs :
    activeRuns (orchExec [.start, .start, .earlyReturn 0, .start]) = 2 ∧
    (orchExec [.start, .start, .earlyReturn 0, .start]).runs.get? 1 =
      some { aborted := false, finished := false } ∧
    (orchExec [.start, .start, .earlyReturn 0, .start]).runs.get? 2 =
      some { aborted := false, finished := false } ∧
    (orchExec [.start, .start, .earlyReturn 0, .start]).status = .running := by
  decide

theorem ensureCalls_stable (n : Nat) :
    ensureCalls n coalesceAfterFirst = (List.replicate n (.awaits 0), coalesceAfterFirst) := by
  induction n with
  | zero => rfl
  | succ m ih =>
    have hstep : ensureCalls (m + 1) coalesceAfterFirst
        = (.awaits 0 :: (ensureCalls m coalesceAfterFirst).1,
           (ensureCalls m coalesceAfterFirst).2) := rfl
    rw [hstep, ih]
    rfl

/-- C2: request coalescing of `ensureExtracted`. For every burst of
`N ≥ 1` calls issued from activation with no completion in between (the
first call's extraction still in flight), exactly one `extractAll`
execution is started (run 0), and every one of the N calls awaits that
same run's promise — so none resolves before that single execution
finishes. Moreover once an extraction has completed (`isExtracted`), an
`ensureExtracted` call returns immediately without starting anything. -/

theorem ensureExtracted_coalesces (n : Nat) (hn : 1 ≤ n) :
    (ensureCalls n initialCoalesceState).2.startedRuns = [0] ∧
    (ensureCalls n initialCoalesceState).1 = List.replicate n (.awaits 0) ∧
    (∀ s : CoalesceState, s.isExtracted = true → ensureStep s = (.immediate, s)) := by
  obtain ⟨m, rfl⟩ : ∃ m, n = m + 1 := ⟨n - 1, (Nat.succ_pred_eq_of_pos hn).symm⟩
  have hfirst : ensureStep initialCoalesceState = (.awaits 0, coalesceAfterFirst) := by rfl
  have hcalls : ensureCalls (m + 1) initialCoalesceState
      = (List.replicate (m + 1) (.awaits 0), coalesceAfterFirst) := by
    have hstep : ensureCalls (m + 1) initialCoalesceState
        = (.awaits 0 :: (ensureCalls m coalesceAfterFirst).1,
           (ensureCalls m coalesceAfterFirst).2) := rfl
    rw [hstep, ensureCalls_stable m]
    rfl
  refine ⟨?_, ?_, ?_⟩
  · rw [hcalls]
    rfl
  · rw [hcalls]
  · intro s hs
    simp [ensureStep, hs]

/-- C2 witness: the coalescing theorem applied to a burst of three calls. -/

theorem ensureExtracted_coalesces_witness :
    1 ≤ 3 ∧
    ((ensureCalls 3 initialCoalesceState).2.startedRuns = [0] ∧
      (ensureCalls 3 initialCoalesceState).1 = List.replicate 3 (.awaits 0) ∧
      (∀ s : CoalesceState, s.isExtracted = true → ensureStep s = (.immediate, s))) :=
  ⟨by decide, ensureExtracted_coalesces 3 (by decide)⟩

/-- C7: the 50 MiB size ceiling of `parseCSS`. For an artifact whose byte
length exceeds `MAX_CSS_FILE_SIZE_BYTES`, `parseCSS` raises the
size-exceeded condition with the grammar parser never invoked and the
content never read in full; for an artifact at or below the ceiling this
check raises no error (the result is never `sizeExceeded`). -/

theorem parseCSS_size_ceiling (g : Grammar) (fs : FileSys) (p : String) (content : List Nat)
    (hp : p ≠ "") (hread : fs p = some content) :
    (MAX_CSS_FILE_SIZE_BYTES < content.length →
      parseCSSInstr g fs p =
        { result := .error .sizeExceeded, grammarInvoked := false, fullReadDone := false }) ∧
    (content.length ≤ MAX_CSS_FILE_SIZE_BYTES →
      (parseCSSInstr g fs p).result ≠ .error .sizeExceeded) := by
  constructor
  · intro hbig
    simp [parseCSSInstr, hp, hread, hbig]
  · intro hsmall
    have hnot : ¬ (MAX_CSS_FILE_SIZE_BYTES < content.length) := by omega
    simp [parseCSSInstr, hp, hread, hnot]
    cases g content with
    | error e => simp
    | ok rules => simp

/-- C7 witness: the ceiling theorem applied to a concrete 51 MiB artifact,
with the concrete size-exceeded outcome instantiated. -/

theorem parseCSS_size_ceiling_witness :
    MAX_CSS_FILE_SIZE_BYTES < c7Big.length ∧
    parseCSSInstr c7Grammar c7Fs "/w/big.css" =
      { result := .error .sizeExceeded, grammarInvoked := false, fullReadDone := false } := by
  have hlen : c7Big.length = 53477376 := by
    simp only [c7Big, List.length_replicate]
  have hbig : MAX_CSS_FILE_SIZE_BYTES < c7Big.length := by
    rw [hlen]
    decide
  exact ⟨hbig,
    (parseCSS_size_ceiling c7Grammar c7Fs "/w/big.css" c7Big (by decide) rfl).1 hbig⟩

/-- C8: persistent-cache key collision avoidance. The current key is built
from a fixed-length digest of the full root path (`pathHash`, the sha256
prefix, abstracted as a parameter) plus the literal version string, so any
two root paths with distinct digests get distinct keys for every version.
By contrast the earlier revision's naive character-substitution component
collides on the spec's example: `/a/b` and `/a-b` are distinct paths whose
sanitized forms (and hence naive keys) coincide. -/

theorem cacheKey_digest_distinct (pathHash : String → String) (p1 p2 v : String)
    (hdig : pathHash p1 ≠ pathHash p2) :
    getCacheKey pathHash p1 v ≠ getCacheKey pathHash p2 v ∧
    sanitizePath "/a/b" = sanitizePath "/a-b" ∧
    "/a/b" ≠ "/a-b" ∧
    getCacheKeyNaive "/a/b" v = getCacheKeyNaive "/a-b" v := by
  refine ⟨?_, by decide, by decide, ?_⟩
  · intro h
    apply hdig
    have hd := congrArg String.data h
    simp only [getCacheKey, String.data_append, List.append_assoc] at hd
    have hd1 := List.append_cancel_left hd
    exact String.ext (List.append_cancel_right hd1)
  · have hs : sanitizePath "/a/b" = sanitizePath "/a-b" := by decide
    simp [getCacheKeyNaive, hs]

/-- C8 witness: the key-distinctness theorem applied to the example paths
with a concrete digest function. -/

theorem cacheKey_digest_distinct_witness :
    c8Hash "/a/b" ≠ c8Hash "/a-b" ∧
    (getCacheKey c8Hash "/a/b" "3.1.0" ≠ getCacheKey c8Hash "/a-b" "3.1.0" ∧
      sanitizePath "/a/b" = sanitizePath "/a-b" ∧
      "/a/b" ≠ "/a-b" ∧
      getCacheKeyNaive "/a/b" "3.1.0" = getCacheKeyNaive "/a-b" "3.1.0") :=
  ⟨by decide, cacheKey_digest_distinct c8Hash "/a/b" "/a-b" "3.1.0" (by decide)⟩

theorem lookupA_filter_drop {α β γ : Type} [DecidableEq α] [DecidableEq β]
    (l : List ((α × β) × γ)) (a : α) (b : β) :
    lookupA (l.filter (fun kv => !(decide (kv.1.1 = a)))) (a, b) = none := by
  induction l with
  | nil => rfl
  | cons hd t ih =>
    obtain ⟨⟨x, y⟩, z⟩ := hd
    by_cases hx : x = a
    · subst hx
      simp [List.filter_cons, ih]
    · simp [List.filter_cons, hx, lookupA, ih]

theorem lookupA_filter_keep {α β γ : Type} [DecidableEq α] [DecidableEq β]
    (l : List ((α × β) × γ)) (a w : α) (b : β) (h : w ≠ a) :
    lookupA (l.filter (fun kv => !(decide (kv.1.1 = a)))) (w, b) = lookupA l (w, b) := by
  induction l with
  | nil => rfl
  | cons hd t ih =>
    obtain ⟨⟨x, y⟩, z⟩ := hd
    by_cases hx : x = a
    · subst hx
      have hxw : ¬ (x = w) := fun h' => h h'.symm
      simp [List.filter_cons, lookupA, hxw, ih]
    · simp [List.filter_cons, hx, lookupA, ih]

/-- `VuetifyCache.get` on a stale memory entry: the entry's version
matches but the durable entry's stored hash differs from the current
artifact hash, so validation fails, the workspace is invalidated, and the
call misses. -/

theorem cacheGet_stale (fs : FileSys) (c : CacheState) (E D : CacheEntry)
    (ws v css : String) (b1 : List Nat)
    (hmem : lookupA c.mem ws = some E) (hver : E.version = v)
    (hdiskE : lookupA c.disk (ws, v) = some D)
    (hfs : fs css = some b1) (hne : D.hash ≠ some b1) :
    cacheGet fs c ws v (some css) = (none, invalidateCache c ws) := by
  have hmh : memHit c ws v = some E := by
    simp [memHit, hmem, hver]
  have hnp : cacheGetNoPath c ws v = (some E.utilities, c) := by
    simp [cacheGetNoPath, hmh]
  have hdec : decide (some b1 = D.hash) = false := by
    simp
    intro h'
    exact hne h'.symm
  have hval : isValidC fs c ws v css = (false, c) := by
    simp [isValidC, hnp, readFromDisk, hdiskE, calculateFileHash, hfs, hdec]
  simp [cacheGet, hmh, hval]

/-- C1: content-hash invalidation. For a root whose cache entry was
created by `set` while the artifact read `b0`, if the artifact's bytes
change to `b1 ≠ b0` while the discovered version stays the same, then
`get` with the artifact path returns a miss, the stale entry is removed
from the memory layer and every durable entry of that root is removed,
and the next extraction for that root takes the parse path (one `parseCSS`
invocation) instead of adopting the stale records. -/

theorem cache_hash_invalidation (g : Grammar) (fs0 fs1 : FileSys) (c : CacheState)
    (s : ExtractorState) (inst : Installation) (records : List UtilityClass)
    (b0 b1 : List Nat) (now now' : Nat)
    (h0 : fs0 inst.cssPath = some b0) (h1 : fs1 inst.cssPath = some b1) (hne : b0 ≠ b1)
    (hcache : s.cache
      = cacheSet fs0 c inst.workspacePath inst.version records inst.cssPath now) :
    (cacheGet fs1 s.cache inst.workspacePath inst.version (some inst.cssPath)).1 = none ∧
    lookupA (cacheGet fs1 s.cache inst.workspacePath inst.version (some inst.cssPath)).2.mem
      inst.workspacePath = none ∧
    (∀ ver : String,
      lookupA (cacheGet fs1 s.cache inst.workspacePath inst.version
        (some inst.cssPath)).2.disk (inst.workspacePath, ver) = none) ∧
    (extractForWorkspace g fs1 s inst false now').2.2 = 1 := by
  have hget : cacheGet fs1 s.cache inst.workspacePath inst.version (some inst.cssPath)
      = (none, invalidateCache s.cache inst.workspacePath) := by
    apply cacheGet_stale fs1 s.cache
      { version := inst.version, timestamp := now, utilities := records, hash := some b0 }
      { version := inst.version, timestamp := now, utilities := records, hash := some b0 }
      inst.workspacePath inst.version inst.cssPath b1
    · rw [hcache]
      simp [cacheSet, calculateFileHash, h0, lookupA_insertA_self]
    · rfl
    · rw [hcache]
      simp [cacheSet, calculateFileHash, h0, lookupA_insertA_self]
    · exact h1
    · simp
      intro h'
      exact hne h'
  refine ⟨by rw [hget], ?_, ?_, ?_⟩
  · rw [hget]
    simp [invalidateCache, lookupA_eraseA_self]
  · intro ver
    rw [hget]
    simp [invalidateCache, lookupA_filter_drop]
  · simp only [extractForWorkspace, hget]
    cases hres : (parseCSSInstr g fs1 inst.cssPath).result with
    | error e => simp [hres]
    | ok us => simp [hres]

/-- C1 witness: the invalidation theorem applied to the concrete root with
changed artifact bytes. -/

theorem cache_hash_invalidation_witness :
    c1Fs0 "/w/a.css" = some [1, 2] ∧ c1Fs1 "/w/a.css" = some [3] ∧
    ([1, 2] : List Nat) ≠ [3] ∧
    ((cacheGet c1Fs1 c1State.cache "/w" "3.1.0" (some "/w/a.css")).1 = none ∧
      lookupA (cacheGet c1Fs1 c1State.cache "/w" "3.1.0" (some "/w/a.css")).2.mem "/w" = none ∧
      (∀ ver : String,
        lookupA (cacheGet c1Fs1 c1State.cache "/w" "3.1.0"
          (some "/w/a.css")).2.disk ("/w", ver) = none) ∧
      (extractForWorkspace c1Grammar c1Fs1 c1State c1Inst false 9).2.2 = 1) :=
  ⟨rfl, rfl, by decide,
    cache_hash_invalidation c1Grammar c1Fs0 c1Fs1 { mem := [], disk := [] } c1State c1Inst
      c1Records [1, 2] [3] 5 9 rfl rfl (by decide) rfl⟩

/-- C10: the memoized `getAllUtilities` is not observationally equivalent
to the naive recomputation. A consumer calls `getAllUtilities` before
extraction (memoizing the empty concatenation); the root then adopts its
records from a disk-cache hit in `extractForWorkspace` — a path that
changes the utilities map but, unlike the parse path, does not reset
`allUtilitiesCache`; the next `getAllUtilities` serves the stale memo `[]`
while the naive implementation returns the adopted records. -/

theorem getAllUtilities_memo_stale :
    (getAllUtilities ((extractForWorkspace c10Grammar c10Fs (getAllUtilities c10State).2
        c10Inst false 7).2.1)).1 = [] ∧
    getAllUtilitiesNaive ((extractForWorkspace c10Grammar c10Fs (getAllUtilities c10State).2
        c10Inst false 7).2.1) = c10Records ∧
    ([] : List UtilityClass) ≠ c10Records := by
  decide

theorem processNames_seen_mem (sel : String) (props : List (String × String))
    (ns : List String) (seen : List String) (x : String) :
    x ∈ (processNames sel props ns seen).2 ↔ x ∈ ns ∨ x ∈ seen := by
  induction ns generalizing seen with
  | nil => simp [processNames]
  | cons n t ih =>
    by_cases hn : n ∈ seen
    · simp only [processNames, if_pos hn]
      rw [ih]
      constructor
      · intro h
        rcases h with h | h
        · exact Or.inl (List.mem_cons_of_mem n h)
        · exact Or.inr h
      · intro h
        rcases h with h | h
        · rcases List.mem_cons.mp h with rfl | h
          · exact Or.inr hn
          · exact Or.inl h
        · exact Or.inr h
    · simp only [processNames, if_neg hn]
      rw [ih]
      simp [List.mem_cons]
      tauto

theorem processNames_out (sel : String) (props : List (String × String))
    (ns : List String) (seen : List String) (u : UtilityClass)
    (hu : u ∈ (processNames sel props ns seen).1) :
    u.name ∈ ns ∧ u.name ∉ seen ∧ u.properties = props ∧ u.selector = sel := by
  induction ns generalizing seen with
  | nil => simp [processNames] at hu
  | cons n t ih =>
    by_cases hn : n ∈ seen
    · simp only [processNames, if_pos hn] at hu
      obtain ⟨h1, h2, h3, h4⟩ := ih seen hu
      exact ⟨List.mem_cons_of_mem n h1, h2, h3, h4⟩
    · simp only [processNames, if_neg hn] at hu
      rcases List.mem_cons.mp hu with rfl | hu'
      · exact ⟨List.mem_cons_self _ _, hn, rfl, rfl⟩
      · obtain ⟨h1, h2, h3, h4⟩ := ih (n :: seen) hu'
        refine ⟨List.mem_cons_of_mem n h1, ?_, h3, h4⟩
        intro hcon
        exact h2 (List.mem_cons_of_mem n hcon)

theorem processNames_nodup (sel : String) (props : List (String × String))
    (ns : List String) (seen : List String) :
    ((processNames sel props ns seen).1.map (fun u => u.name)).Nodup := by
  induction ns generalizing seen with
  | nil => simp [processNames]
  | cons n t ih =>
    by_cases hn : n ∈ seen
    · simp only [processNames, if_pos hn]
      exact ih seen
    · simp only [processNames, if_neg hn, List.map_cons, List.nodup_cons]
      refine ⟨?_, ih (n :: seen)⟩
      intro hcon
      rcases List.mem_map.mp hcon with ⟨u, hu, hname⟩
      have := (processNames_out sel props t (n :: seen) u hu).2.1
      rw [hname] at this
      exact this (List.mem_cons_self _ _)

theorem extractUtilitiesFromRule_seen_mem (r : Rule) (seen : List String) (x : String) :
    x ∈ (extractUtilitiesFromRule r seen).2 ↔
      (isUtilitySelector r.selector = true ∧ x ∈ extractClassNames r.selector) ∨ x ∈ seen := by
  by_cases he : isUtilitySelector r.selector
  · simp only [extractUtilitiesFromRule, if_pos he]
    rw [processNames_seen_mem]
    simp [he]
  · simp only [extractUtilitiesFromRule, if_neg he]
    simp [he]

theorem extractUtilitiesFromRule_out (r : Rule) (seen : List String) (u : UtilityClass)
    (hu : u ∈ (extractUtilitiesFromRule r seen).1) :
    isUtilitySelector r.selector = true ∧ u.name ∈ extractClassNames r.selector ∧
    u.name ∉ seen ∧ u.properties = declProps r ∧ u.selector = r.selector := by
  by_cases he : isUtilitySelector r.selector
  · simp only [extractUtilitiesFromRule, if_pos he] at hu
    obtain ⟨h1, h2, h3, h4⟩ := processNames_out _ _ _ _ u hu
    exact ⟨he, h1, h2, h3, h4⟩
  · simp [extractUtilitiesFromRule, if_neg he] at hu

theorem extractUtilitiesFromRule_nodup (r : Rule) (seen : List String) :
    ((extractUtilitiesFromRule r seen).1.map (fun u => u.name)).Nodup := by
  by_cases he : isUtilitySelector r.selector
  · simp only [extractUtilitiesFromRule, if_pos he]
    exact processNames_nodup _ _ _ _
  · simp [extractUtilitiesFromRule, if_neg he]

theorem extractUtilitiesGo_out_notseen (rules : List Rule) (seen : List String)
    (u : UtilityClass) (hu : u ∈ (extractUtilitiesGo rules seen).1) : u.name ∉ seen := by
  induction rules generalizing seen with
  | nil => simp [extractUtilitiesGo] at hu
  | cons r rs ih =>
    simp only [extractUtilitiesGo, List.mem_append] at hu
    rcases hu with hu | hu
    · exact (extractUtilitiesFromRule_out r seen u hu).2.2.1
    · intro hcon
      have hseen : u.name ∈ (extractUtilitiesFromRule r seen).2 :=
        (extractUtilitiesFromRule_seen_mem r seen u.name).mpr (Or.inr hcon)
      exact ih (extractUtilitiesFromRule r seen).2 hu hseen

theorem extractUtilitiesGo_nodup (rules : List Rule) (seen : List String) :
    ((extractUtilitiesGo rules seen).1.map (fun u => u.name)).Nodup := by
  induction rules generalizing seen with
  | nil => simp [extractUtilitiesGo]
  | cons r rs ih =>
    simp only [extractUtilitiesGo, List.map_append, List.nodup_append]
    refine ⟨extractUtilitiesFromRule_nodup r seen, ih _, ?_⟩
    intro x hx1 hx2
    rcases List.mem_map.mp hx1 with ⟨u, hu, rfl⟩
    rcases List.mem_map.mp hx2 with ⟨u', hu', hname⟩
    have hseen : u.name ∈ (extractUtilitiesFromRule r seen).2 := by
      obtain ⟨he, hmem, _, _, _⟩ := extractUtilitiesFromRule_out r seen u hu
      exact (extractUtilitiesFromRule_seen_mem r seen u.name).mpr (Or.inl ⟨he, hmem⟩)
    have := extractUtilitiesGo_out_notseen rs _ u' hu'
    rw [hname] at this
    exact this hseen

theorem extractUtilitiesGo_first_wins (rules : List Rule) (seen : List String)
    (u : UtilityClass) (hu : u ∈ (extractUtilitiesGo rules seen).1) :
    ∃ r, rules.find? (fun r => eligibleFor u.name r) = some r ∧
      u.properties = declProps r ∧ u.selector = r.selector := by
  induction rules generalizing seen with
  | nil => simp [extractUtilitiesGo] at hu
  | cons r rs ih =>
    simp only [extractUtilitiesGo, List.mem_append] at hu
    rcases hu with hu | hu
    · obtain ⟨he, hmem, _, hprops, hsel⟩ := extractUtilitiesFromRule_out r seen u hu
      refine ⟨r, ?_, hprops, hsel⟩
      have helig : eligibleFor u.name r = true := by
        simp [eligibleFor, he, hmem]
      simp [List.find?_cons, helig]
    · have hnot : u.name ∉ (extractUtilitiesFromRule r seen).2 :=
        extractUtilitiesGo_out_notseen rs _ u hu
      have helig : eligibleFor u.name r = false := by
        by_cases he : isUtilitySelector r.selector
        · by_cases hmem : u.name ∈ extractClassNames r.selector
          · exact absurd ((extractUtilitiesFromRule_seen_mem r seen u.name).mpr
              (Or.inl ⟨he, hmem⟩)) hnot
          · simp [eligibleFor, hmem]
        · simp [eligibleFor, he]
      obtain ⟨r', hfind, hprops, hsel⟩ := ih _ hu
      refine ⟨r', ?_, hprops, hsel⟩
      simp [List.find?_cons, helig, hfind]

/-- C6: dedup by class name across the whole artifact, first rule wins.
For every parser input the emitted record names are pairwise distinct (the
seen-name set is accumulated across the full walk), and every emitted
record carries the properties and selector of the first eligible rule that
introduces its name. On the spec's example — two rules both matching
`ma-2` with different declarations — exactly one record named `ma-2` is
produced, carrying the first rule's properties. -/

theorem parser_dedup_first_wins (rules : List Rule) :
    ((extractUtilities rules).map (fun u => u.name)).Nodup ∧
    (∀ u ∈ extractUtilities rules, ∃ r,
      rules.find? (fun r => eligibleFor u.name r) = some r ∧
      u.properties = declProps r ∧ u.selector = r.selector) ∧
    extractUtilities c6Rules = [c6Record] := by
  refine ⟨extractUtilitiesGo_nodup rules [], ?_, by decide⟩
  intro u hu
  exact extractUtilitiesGo_first_wins rules [] u hu

/-- C6 witness: the dedup theorem applied to the demo input and its single
emitted record. -/

theorem parser_dedup_first_wins_witness :
    c6Record ∈ extractUtilities c6Rules ∧
    (∃ r, c6Rules.find? (fun r => eligibleFor c6Record.name r) = some r ∧
      c6Record.properties = declProps r ∧ c6Record.selector = r.selector) :=
  ⟨by decide, (parser_dedup_first_wins c6Rules).2.1 c6Record (by decide)⟩

theorem efw_forced_err (g : Grammar) (fs : FileSys) (s : ExtractorState) (inst : Installation)
    (now : Nat) (e : ParseError)
    (hpr : (parseCSSInstr g fs inst.cssPath).result = .error e) :
    extractForWorkspace g fs s inst true now = (.error e, s, 1) := by
  simp [extractForWorkspace, hpr]

theorem efw_forced_ok (g : Grammar) (fs : FileSys) (s : ExtractorState) (inst : Installation)
    (now : Nat) (us : List UtilityClass)
    (hpr : (parseCSSInstr g fs inst.cssPath).result = .ok us) :
    extractForWorkspace g fs s inst true now =
      (.ok (),
        { s with
          cache := cacheSet fs s.cache inst.workspacePath inst.version us inst.cssPath now,
          utilities := insertA s.utilities inst.workspacePath us,
          installations := insertA s.installations inst.workspacePath inst,
          allUtilitiesCache := none }, 1) := by
  simp [extractForWorkspace, hpr]

theorem efw_hit (g : Grammar) (fs : FileSys) (s : ExtractorState) (inst : Installation)
    (now : Nat) (cached : List UtilityClass) (c1 : CacheState)
    (hcg : cacheGet fs s.cache inst.workspacePath inst.version (some inst.cssPath)
      = (some cached, c1)) :
    extractForWorkspace g fs s inst false now =
      (.ok (),
        { s with
          cache := c1,
          utilities := insertA s.utilities inst.workspacePath cached,
          installations := insertA s.installations inst.workspacePath inst }, 0) := by
  simp [extractForWorkspace, hcg]

theorem efw_miss_err (g : Grammar) (fs : FileSys) (s : ExtractorState) (inst : Installation)
    (now : Nat) (c1 : CacheState) (e : ParseError)
    (hcg : cacheGet fs s.cache inst.workspacePath inst.version (some inst.cssPath) = (none, c1))
    (hpr : (parseCSSInstr g fs inst.cssPath).result = .error e) :
    extractForWorkspace g fs s inst false now = (.error e, { s with cache := c1 }, 1) := by
  simp [extractForWorkspace, hcg, hpr]

theorem efw_miss_ok (g : Grammar) (fs : FileSys) (s : ExtractorState) (inst : Installation)
    (now : Nat) (c1 : CacheState) (us : List UtilityClass)
    (hcg : cacheGet fs s.cache inst.workspacePath inst.version (some inst.cssPath) = (none, c1))
    (hpr : (parseCSSInstr g fs inst.cssPath).result = .ok us) :
    extractForWorkspace g fs s inst false now =
      (.ok (),
        { s with
          cache := cacheSet fs c1 inst.workspacePath inst.version us inst.cssPath now,
          utilities := insertA s.utilities inst.workspacePath us,
          installations := insertA s.installations inst.workspacePath inst,
          allUtilitiesCache := none }, 1) := by
  simp [extractForWorkspace, hcg, hpr]

/-- A failing per-root extraction throws before the Index update: the
utilities map at return time equals the map at entry. -/

theorem efw_err_keeps_utilities (g : Grammar) (fs : FileSys) (s : ExtractorState)
    (inst : Installation) (fr : Bool) (now : Nat) (e : ParseError)
    (h : (extractForWorkspace g fs s inst fr now).1 = .error e) :
    (extractForWorkspace g fs s inst fr now).2.1.utilities = s.utilities := by
  cases fr with
  | true =>
    cases hres : (parseCSSInstr g fs inst.cssPath).result with
    | error e' => rw [efw_forced_err g fs s inst now e' hres]
    | ok us => rw [efw_forced_ok g fs s inst now us hres] at h; simp at h
  | false =>
    rcases hcg : cacheGet fs s.cache inst.workspacePath inst.version (some inst.cssPath)
      with ⟨o, c1⟩
    cases o with
    | some cached => rw [efw_hit g fs s inst now cached c1 hcg] at h; simp at h
    | none =>
      cases hres : (parseCSSInstr g fs inst.cssPath).result with
      | error e' => rw [efw_miss_err g fs s inst now c1 e' hcg hres]
      | ok us => rw [efw_miss_ok g fs s inst now c1 us hcg hres] at h; simp at h

/-- A per-root extraction only writes the Index at its own root. -/

theorem efw_frame_utilities (g : Grammar) (fs : FileSys) (s : ExtractorState)
    (inst : Installation) (fr : Bool) (now : Nat) (w : String)
    (hw : w ≠ inst.workspacePath) :
    lookupA (extractForWorkspace g fs s inst fr now).2.1.utilities w
      = lookupA s.utilities w := by
  cases fr with
  | true =>
    cases hres : (parseCSSInstr g fs inst.cssPath).result with
    | error e' => rw [efw_forced_err g fs s inst now e' hres]
    | ok us =>
      rw [efw_forced_ok g fs s inst now us hres]
      exact lookupA_insertA_ne _ _ _ _ hw
  | false =>
    rcases hcg : cacheGet fs s.cache inst.workspacePath inst.version (some inst.cssPath)
      with ⟨o, c1⟩
    cases o with
    | some cached =>
      rw [efw_hit g fs s inst now cached c1 hcg]
      exact lookupA_insertA_ne _ _ _ _ hw
    | none =>
      cases hres : (parseCSSInstr g fs inst.cssPath).result with
      | error e' => rw [efw_miss_err g fs s inst now c1 e' hcg hres]
      | ok us =>
        rw [efw_miss_ok g fs s inst now c1 us hcg hres]
        exact lookupA_insertA_ne _ _ _ _ hw

theorem processRoots_cons (g : Grammar) (fs : FileSys) (s : ExtractorState)
    (i : Installation) (l : List Installation) (fr : Bool) (now : Nat) :
    processRoots g fs s (i :: l) fr now =
      ((processRoots g fs (extractForWorkspace g fs s i fr now).2.1 l fr now).1,
       (extractForWorkspace g fs s i fr now).2.2
         + (processRoots g fs (extractForWorkspace g fs s i fr now).2.1 l fr now).2.1,
       (match (extractForWorkspace g fs s i fr now).1 with
        | .error _ => [i.workspacePath]
        | .ok _ => []) ++
         (processRoots g fs (extractForWorkspace g fs s i fr now).2.1 l fr now).2.2) := rfl

theorem processRoots_append (g : Grammar) (fs : FileSys) (s : ExtractorState)
    (l1 l2 : List Installation) (fr : Bool) (now : Nat) :
    processRoots g fs s (l1 ++ l2) fr now =
      ((processRoots g fs (processRoots g fs s l1 fr now).1 l2 fr now).1,
       (processRoots g fs s l1 fr now).2.1
         + (processRoots g fs (processRoots g fs s l1 fr now).1 l2 fr now).2.1,
       (processRoots g fs s l1 fr now).2.2
         ++ (processRoots g fs (processRoots g fs s l1 fr now).1 l2 fr now).2.2) := by
  induction l1 generalizing s with
  | nil => simp [processRoots]
  | cons i t ih =>
    simp only [List.cons_append, processRoots_cons, ih]
    simp [Nat.add_assoc, List.append_assoc]

/-- The Index lookup at a root untouched by any of the processed
installations is preserved across the whole loop. -/

theorem processRoots_frame_utilities (g : Grammar) (fs : FileSys) (s : ExtractorState)
    (l : List Installation) (fr : Bool) (now : Nat) (w : String)
    (hw : ∀ i ∈ l, w ≠ i.workspacePath) :
    lookupA (processRoots g fs s l fr now).1.utilities w = lookupA s.utilities w := by
  induction l generalizing s with
  | nil => rfl
  | cons i t ih =>
    rw [processRoots_cons]
    have h1 := ih (extractForWorkspace g fs s i fr now).2.1
      (fun j hj => hw j (List.mem_cons_of_mem i hj))
    rw [h1]
    exact efw_frame_utilities g fs s i fr now w (hw i (List.mem_cons_self _ _))

/-- C5: per-root failure isolation with state unchanged on error. During
one `extractAll` loop over `pre ++ instF :: post`, if `instF`'s processing
throws (after the roots in `pre` ran), then: the roots in `post` are still
processed, continuing from the state the failing root left behind; the
failing root's Index entry is left exactly at its previous value (neither
cleared nor partially overwritten); and the failure is reported in the
per-root failure list. -/

theorem perRoot_failure_isolated (g : Grammar) (fs : FileSys) (s : ExtractorState)
    (pre : List Installation) (instF : Installation) (post : List Installation)
    (fr : Bool) (now : Nat) (e : ParseError)
    (hdisj : ∀ i ∈ pre ++ post, instF.workspacePath ≠ i.workspacePath)
    (hfail : (extractForWorkspace g fs (processRoots g fs s pre fr now).1 instF fr now).1
      = .error e) :
    (processRoots g fs s (pre ++ instF :: post) fr now).1
      = (processRoots g fs
          (extractForWorkspace g fs (processRoots g fs s pre fr now).1 instF fr now).2.1
          post fr now).1 ∧
    lookupA (processRoots g fs s (pre ++ instF :: post) fr now).1.utilities
        instF.workspacePath
      = lookupA s.utilities instF.workspacePath ∧
    instF.workspacePath ∈ (processRoots g fs s (pre ++ instF :: post) fr now).2.2 := by
  have hpre : ∀ i ∈ pre, instF.workspacePath ≠ i.workspacePath :=
    fun i hi => hdisj i (List.mem_append.mpr (Or.inl hi))
  have hpost : ∀ i ∈ post, instF.workspacePath ≠ i.workspacePath :=
    fun i hi => hdisj i (List.mem_append.mpr (Or.inr hi))
  refine ⟨?_, ?_, ?_⟩
  · simp only [processRoots_append, processRoots_cons]
  · simp only [processRoots_append, processRoots_cons]
    rw [processRoots_frame_utilities g fs _ post fr now instF.workspacePath hpost]
    rw [efw_err_keeps_utilities g fs _ instF fr now e hfail]
    exact processRoots_frame_utilities g fs s pre fr now instF.workspacePath hpre
  · simp only [processRoots_append, processRoots_cons, hfail]
    simp [List.mem_append]

/-- C5 witness: the isolation theorem applied to a concrete three-root
loop whose middle root's artifact is malformed. -/

theorem perRoot_failure_isolated_witness :
    ((extractForWorkspace c5Grammar c5Fs
        (processRoots c5Grammar c5Fs initialExtractorState [c5InstA] false 0).1
        c5InstF false 0).1 = .error .malformed) ∧
    ((processRoots c5Grammar c5Fs initialExtractorState
        ([c5InstA] ++ c5InstF :: [c5InstB]) false 0).1
      = (processRoots c5Grammar c5Fs
          (extractForWorkspace c5Grammar c5Fs
            (processRoots c5Grammar c5Fs initialExtractorState [c5InstA] false 0).1
            c5InstF false 0).2.1
          [c5InstB] false 0).1 ∧
      lookupA (processRoots c5Grammar c5Fs initialExtractorState
          ([c5InstA] ++ c5InstF :: [c5InstB]) false 0).1.utilities "/f"
        = lookupA initialExtractorState.utilities "/f" ∧
      "/f" ∈ (processRoots c5Grammar c5Fs initialExtractorState
          ([c5InstA] ++ c5InstF :: [c5InstB]) false 0).2.2) :=
  ⟨by decide,
    perRoot_failure_isolated c5Grammar c5Fs initialExtractorState [c5InstA] c5InstF
      [c5InstB] false 0 .malformed (by decide) (by decide)⟩

theorem memHit_some_spec (c : CacheState) (ws v : String) (E : CacheEntry)
    (h : memHit c ws v = some E) : lookupA c.mem ws = some E ∧ E.version = v := by
  unfold memHit at h
  cases hm : lookupA c.mem ws with
  | none => rw [hm] at h; simp at h
  | some e =>
    rw [hm] at h
    by_cases hv : e.version = v
    · simp [hv] at h
      subst h
      exact ⟨rfl, hv⟩
    · simp [hv] at h

theorem diskHit_some_spec (c : CacheState) (ws v : String) (D : CacheEntry)
    (h : diskHit c ws v = some D) :
    lookupA c.disk (ws, v) = some D ∧ D.version = v := by
  unfold diskHit readFromDisk at h
  cases hm : lookupA c.disk (ws, v) with
  | none => rw [hm] at h; simp at h
  | some e =>
    rw [hm] at h
    by_cases hv : e.version = v
    · simp [hv] at h
      subst h
      exact ⟨rfl, hv⟩
    · simp [hv] at h

theorem cacheGetNoPath_memHit (c : CacheState) (ws v : String) (E : CacheEntry)
    (h : memHit c ws v = some E) : cacheGetNoPath c ws v = (some E.utilities, c) := by
  simp [cacheGetNoPath, h]

theorem cacheGetNoPath_diskHit (c : CacheState) (ws v : String) (D : CacheEntry)
    (h : memHit c ws v = none) (h2 : diskHit c ws v = some D) :
    cacheGetNoPath c ws v = (some D.utilities, { c with mem := insertA c.mem ws D }) := by
  simp [cacheGetNoPath, h, h2]

theorem cacheGetNoPath_disk_eq (c : CacheState) (ws v : String) :
    (cacheGetNoPath c ws v).2.disk = c.disk := by
  cases hm : memHit c ws v with
  | some E => simp [cacheGetNoPath, hm]
  | none =>
    cases hd : diskHit c ws v with
    | some D => simp [cacheGetNoPath, hm, hd]
    | none => simp [cacheGetNoPath, hm, hd]

theorem cacheGetNoPath_mem_frame (c : CacheState) (ws v : String) (w : String)
    (hw : w ≠ ws) :
    lookupA (cacheGetNoPath c ws v).2.mem w = lookupA c.mem w := by
  cases hm : memHit c ws v with
  | some E => simp [cacheGetNoPath, hm]
  | none =>
    cases hd : diskHit c ws v with
    | some D => simp [cacheGetNoPath, hm, hd, lookupA_insertA_ne _ _ _ _ hw]
    | none => simp [cacheGetNoPath, hm, hd]

theorem isValidC_state (fs : FileSys) (c : CacheState) (ws v css : String) :
    (isValidC fs c ws v css).2 = (cacheGetNoPath c ws v).2 := by
  rcases hnp : cacheGetNoPath c ws v with ⟨cached, c1⟩
  cases cached with
  | none => simp [isValidC, hnp]
  | some x =>
    cases hrd : readFromDisk c1 ws v with
    | none => simp [isValidC, hnp, hrd]
    | some D =>
      cases hch : calculateFileHash fs css with
      | none => simp [isValidC, hnp, hrd, hch]
      | some h => simp [isValidC, hnp, hrd, hch]

theorem isValidC_true_spec (fs : FileSys) (c : CacheState) (ws v css : String)
    (h : (isValidC fs c ws v css).1 = true) :
    ∃ D b, lookupA (cacheGetNoPath c ws v).2.disk (ws, v) = some D ∧
      fs css = some b ∧ D.hash = some b := by
  rcases hnp : cacheGetNoPath c ws v with ⟨cached, c1⟩
  cases cached with
  | none => simp [isValidC, hnp] at h
  | some x =>
    cases hrd : readFromDisk c1 ws v with
    | none => simp [isValidC, hnp, hrd] at h
    | some D =>
      cases hch : calculateFileHash fs css with
      | none => simp [isValidC, hnp, hrd, hch] at h
      | some b =>
        simp [isValidC, hnp, hrd, hch] at h
        refine ⟨D, b, ?_, hch, h.symm⟩
        simpa [readFromDisk] using hrd

/-- `VuetifyCache.get` on a coherent entry: version matches and the
durable entry's stored hash equals the current artifact hash, so the
memory hit is validated and returned without any state change. -/

theorem cacheGet_mem_valid (fs : FileSys) (c : CacheState) (E D : CacheEntry)
    (ws v css : String) (b : List Nat)
    (hmem : lookupA c.mem ws = some E) (hver : E.version = v)
    (hdisk : lookupA c.disk (ws, v) = some D)
    (hfs : fs css = some b) (hhash : D.hash = some b) :
    cacheGet fs c ws v (some css) = (some E.utilities, c) := by
  have hmh : memHit c ws v = some E := by
    simp [memHit, hmem, hver]
  have hnp : cacheGetNoPath c ws v = (some E.utilities, c) := by
    simp [cacheGetNoPath, hmh]
  have hval : isValidC fs c ws v css = (true, c) := by
    simp [isValidC, hnp, readFromDisk, hdisk, calculateFileHash, hfs, hhash]
  simp [cacheGet, hmh, hval]

/-- Processing a coherent root is a pure cache hit that changes nothing:
the adopted records and installation re-insert their present values. -/

theorem coherent_step_id (g : Grammar) (fs : FileSys) (s : ExtractorState)
    (inst : Installation) (now : Nat) (h : CoherentFor fs s inst) :
    extractForWorkspace g fs s inst false now = (.ok (), s, 0) := by
  obtain ⟨E, D, b, hmem, hver, hdisk, hfs, hhash, hut, hin⟩ := h
  have hget := cacheGet_mem_valid fs s.cache E D inst.workspacePath inst.version
    inst.cssPath b hmem hver hdisk hfs hhash
  rw [efw_hit g fs s inst now E.utilities s.cache hget]
  rw [insertA_self _ _ _ hut, insertA_self _ _ _ hin]

theorem processRoots_coherent (g : Grammar) (fs : FileSys) (s : ExtractorState)
    (insts : List Installation) (now : Nat)
    (h : ∀ i ∈ insts, CoherentFor fs s i) :
    processRoots g fs s insts false now = (s, 0, []) := by
  induction insts with
  | nil => rfl
  | cons i t ih =>
    rw [processRoots_cons, coherent_step_id g fs s i now (h i (List.mem_cons_self _ _))]
    simp [ih (fun j hj => h j (List.mem_cons_of_mem _ hj))]

theorem invalidateCache_frame (c : CacheState) (ws w : String) (hw : w ≠ ws) (ver : String) :
    lookupA (invalidateCache c ws).mem w = lookupA c.mem w ∧
    lookupA (invalidateCache c ws).disk (w, ver) = lookupA c.disk (w, ver) :=
  ⟨lookupA_eraseA_ne c.mem ws w hw, lookupA_filter_keep c.disk ws w ver hw⟩

theorem cacheGet_frame (fs : FileSys) (c : CacheState) (ws v : String)
    (o : Option String) (w : String) (hw : w ≠ ws) (ver : String) :
    lookupA (cacheGet fs c ws v o).2.mem w = lookupA c.mem w ∧
    lookupA (cacheGet fs c ws v o).2.disk (w, ver) = lookupA c.disk (w, ver) := by
  have hnpm := cacheGetNoPath_mem_frame c ws v w hw
  have hnpd := cacheGetNoPath_disk_eq c ws v
  cases hmh : memHit c ws v with
  | some memEntry =>
    cases o with
    | none => simp [cacheGet, hmh]
    | some css =>
      rcases hv : isValidC fs c ws v css with ⟨valid, c1⟩
      have hc1 : c1 = (cacheGetNoPath c ws v).2 := by
        rw [← isValidC_state fs c ws v css, hv]
      subst hc1
      cases valid with
      | true => simp [cacheGet, hmh, hv, hnpm, hnpd]
      | false =>
        simp [cacheGet, hmh, hv, invalidateCache, lookupA_eraseA_ne, lookupA_filter_keep,
          hw, hnpm, hnpd]
  | none =>
    cases hdh : diskHit c ws v with
    | none => simp [cacheGet, hmh, hdh]
    | some diskEntry =>
      cases o with
      | none => simp [cacheGet, hmh, hdh, lookupA_insertA_ne, hw]
      | some css =>
        rcases hv : isValidC fs c ws v css with ⟨valid, c1⟩
        have hc1 : c1 = (cacheGetNoPath c ws v).2 := by
          rw [← isValidC_state fs c ws v css, hv]
        subst hc1
        cases valid with
        | true => simp [cacheGet, hmh, hdh, hv, lookupA_insertA_ne, hw, hnpm, hnpd]
        | false =>
          simp [cacheGet, hmh, hdh, hv, invalidateCache, lookupA_eraseA_ne,
            lookupA_filter_keep, hw, hnpm, hnpd]

theorem cacheSet_frame (fs : FileSys) (c : CacheState) (ws v : String)
    (us : List UtilityClass) (css : String) (now : Nat) (w : String) (hw : w ≠ ws)
    (ver : String) :
    lookupA (cacheSet fs c ws v us css now).mem w = lookupA c.mem w ∧
    lookupA (cacheSet fs c ws v us css now).disk (w, ver) = lookupA c.disk (w, ver) := by
  constructor
  · exact lookupA_insertA_ne _ _ _ _ hw
  · apply lookupA_insertA_ne
    intro h'
    exact hw (congrArg Prod.fst h')

/-- A per-root extraction for one root leaves every other root's cache
lookups, Index entry and installation entry unchanged. -/

theorem efw_frame (g : Grammar) (fs : FileSys) (s : ExtractorState) (inst : Installation)
    (fr : Bool) (now : Nat) (w : String) (hw : w ≠ inst.workspacePath) (ver : String) :
    lookupA (extractForWorkspace g fs s inst fr now).2.1.cache.mem w = lookupA s.cache.mem w ∧
    lookupA (extractForWorkspace g fs s inst fr now).2.1.cache.disk (w, ver)
      = lookupA s.cache.disk (w, ver) ∧
    lookupA (extractForWorkspace g fs s inst fr now).2.1.utilities w
      = lookupA s.utilities w ∧
    lookupA (extractForWorkspace g fs s inst fr now).2.1.installations w
      = lookupA s.installations w := by
  cases fr with
  | true =>
    cases hres : (parseCSSInstr g fs inst.cssPath).result with
    | error e' =>
      rw [efw_forced_err g fs s inst now e' hres]
      exact ⟨rfl, rfl, rfl, rfl⟩
    | ok us =>
      rw [efw_forced_ok g fs s inst now us hres]
      refine ⟨(cacheSet_frame fs s.cache _ _ us _ now w hw ver).1,
        (cacheSet_frame fs s.cache _ _ us _ now w hw ver).2,
        lookupA_insertA_ne _ _ _ _ hw, lookupA_insertA_ne _ _ _ _ hw⟩
  | false =>
    rcases hcg : cacheGet fs s.cache inst.workspacePath inst.version (some inst.cssPath)
      with ⟨o, c1⟩
    have hfr := cacheGet_frame fs s.cache inst.workspacePath inst.version
      (some inst.cssPath) w hw ver
    rw [hcg] at hfr
    cases o with
    | some cached =>
      rw [efw_hit g fs s inst now cached c1 hcg]
      exact ⟨hfr.1, hfr.2, lookupA_insertA_ne _ _ _ _ hw, lookupA_insertA_ne _ _ _ _ hw⟩
    | none =>
      cases hres : (parseCSSInstr g fs inst.cssPath).result with
      | error e' =>
        rw [efw_miss_err g fs s inst now c1 e' hcg hres]
        exact ⟨hfr.1, hfr.2, rfl, rfl⟩
      | ok us =>
        rw [efw_miss_ok g fs s inst now c1 us hcg hres]
        refine ⟨?_, ?_, lookupA_insertA_ne _ _ _ _ hw, lookupA_insertA_ne _ _ _ _ hw⟩
        · rw [(cacheSet_frame fs c1 _ _ us _ now w hw ver).1]
          exact hfr.1
        · rw [(cacheSet_frame fs c1 _ _ us _ now w hw ver).2]
          exact hfr.2

/-- Coherence of a root survives the processing of a different root. -/

theorem coherent_efw_frame (g : Grammar) (fs : FileSys) (s : ExtractorState)
    (inst instO : Installation) (fr : Bool) (now : Nat)
    (hw : instO.workspacePath ≠ inst.workspacePath)
    (h : CoherentFor fs s instO) :
    CoherentFor fs (extractForWorkspace g fs s inst fr now).2.1 instO := by
  obtain ⟨E, D, b, hmem, hver, hdisk, hfs, hhash, hut, hin⟩ := h
  obtain ⟨f1, f2, f3, f4⟩ := efw_frame g fs s inst fr now instO.workspacePath hw
    instO.version
  exact ⟨E, D, b, by rw [f1]; exact hmem, hver, by rw [f2]; exact hdisk, hfs, hhash,
    by rw [f3]; exact hut, by rw [f4]; exact hin⟩

theorem coherent_processRoots_frame (g : Grammar) (fs : FileSys) (s : ExtractorState)
    (l : List Installation) (instO : Installation) (fr : Bool) (now : Nat)
    (hw : ∀ i ∈ l, instO.workspacePath ≠ i.workspacePath)
    (h : CoherentFor fs s instO) :
    CoherentFor fs (processRoots g fs s l fr now).1 instO := by
  induction l generalizing s with
  | nil => exact h
  | cons i t ih =>
    rw [processRoots_cons]
    exact ih (extractForWorkspace g fs s i fr now).2.1
      (fun j hj => hw j (List.mem_cons_of_mem i hj))
      (coherent_efw_frame g fs s i instO fr now (hw i (List.mem_cons_self _ _)) h)

theorem parseCSSInstr_ok_read (g : Grammar) (fs : FileSys) (p : String)
    (us : List UtilityClass) (h : (parseCSSInstr g fs p).result = .ok us) :
    ∃ content, fs p = some content := by
  by_cases hp : p = ""
  · simp [parseCSSInstr, hp] at h
  · cases hfs : fs p with
    | none => simp [parseCSSInstr, hp, hfs] at h
    | some content => exact ⟨content, rfl⟩

/-- A validated hit of `VuetifyCache.get`: the returned records come from
a version-matching entry now in the memory layer, and a durable entry for
the root exists whose stored hash matches the current artifact bytes. -/

theorem cacheGet_some_spec (fs : FileSys) (c : CacheState) (ws v css : String)
    (us : List UtilityClass) (c' : CacheState)
    (h : cacheGet fs c ws v (some css) = (some us, c')) :
    ∃ E D b, lookupA c'.mem ws = some E ∧ E.version = v ∧ E.utilities = us ∧
      lookupA c'.disk (ws, v) = some D ∧ D.hash = some b ∧ fs css = some b := by
  cases hmh : memHit c ws v with
  | some memEntry =>
    obtain ⟨hmem, hver⟩ := memHit_some_spec c ws v memEntry hmh
    rcases hv : isValidC fs c ws v css with ⟨valid, c1⟩
    have hc1 : c1 = (cacheGetNoPath c ws v).2 := by
      rw [← isValidC_state fs c ws v css, hv]
    have hnp := cacheGetNoPath_memHit c ws v memEntry hmh
    cases valid with
    | false => simp [cacheGet, hmh, hv] at h
    | true =>
      simp only [cacheGet, hmh, hv, if_true] at h
      obtain ⟨D, b, hD, hfs, hhash⟩ := isValidC_true_spec fs c ws v css (by rw [hv])
      rw [hnp] at hD
      have hus : memEntry.utilities = us := by
        have := congrArg Prod.fst h
        simpa using this
      have hcc : c1 = c' := by
        have := congrArg Prod.snd h
        simpa using this
      rw [hnp] at hc1
      refine ⟨memEntry, D, b, ?_, hver, hus, ?_, hhash, hfs⟩
      · rw [← hcc, hc1]
        exact hmem
      · rw [← hcc, hc1]
        exact hD
  | none =>
    cases hdh : diskHit c ws v with
    | none => simp [cacheGet, hmh, hdh] at h
    | some diskEntry =>
      obtain ⟨hdiskl, hver⟩ := diskHit_some_spec c ws v diskEntry hdh
      rcases hv : isValidC fs c ws v css with ⟨valid, c1⟩
      have hc1 : c1 = (cacheGetNoPath c ws v).2 := by
        rw [← isValidC_state fs c ws v css, hv]
      have hnp := cacheGetNoPath_diskHit c ws v diskEntry hmh hdh
      cases valid with
      | false => simp [cacheGet, hmh, hdh, hv] at h
      | true =>
        simp only [cacheGet, hmh, hdh, hv, if_true] at h
        obtain ⟨D, b, hD, hfs, hhash⟩ := isValidC_true_spec fs c ws v css (by rw [hv])
        rw [hnp] at hD hc1
        have hus : diskEntry.utilities = us := by
          have := congrArg Prod.fst h
          simpa using this
        have hcc : ({ c1 with mem := insertA c1.mem ws diskEntry } : CacheState) = c' := by
          have := congrArg Prod.snd h
          simpa using this
        have hDd : D = diskEntry := by
          simp only [hc1] at hD
          rw [hD] at hdiskl
          cases hdiskl
          rfl
      
        refine ⟨diskEntry, diskEntry, b, ?_, hver, hus, ?_, ?_, hfs⟩
        · rw [← hcc]
          exact lookupA_insertA_self _ _ _
        · rw [← hcc]
          show lookupA c1.disk (ws, v) = some diskEntry
          rw [hc1]
          exact hdiskl
        · rw [← hDd]
          exact hhash

/-- A successful per-root extraction (hit or parse) leaves that root
coherent: validated cache entries in both layers matching the current
artifact bytes, with the Index and installations map holding the adopted
values. -/

theorem efw_ok_coherent (g : Grammar) (fs : FileSys) (s : ExtractorState)
    (inst : Installation) (now : Nat) (s' : ExtractorState) (k : Nat)
    (h : extractForWorkspace g fs s inst false now = (.ok (), s', k)) :
    CoherentFor fs s' inst := by
  rcases hcg : cacheGet fs s.cache inst.workspacePath inst.version (some inst.cssPath)
    with ⟨o, c1⟩
  cases o with
  | some cached =>
    rw [efw_hit g fs s inst now cached c1 hcg] at h
    have hs' :
        ({ s with
            cache := c1,
            utilities := insertA s.utilities inst.workspacePath cached,
            installations := insertA s.installations inst.workspacePath inst }
          : ExtractorState) = s' := by
      have h2 := congrArg (fun t => t.2.1) h
      simpa using h2
    obtain ⟨E, D, b, hmem, hver, hEu, hdisk, hhash, hfs⟩ :=
      cacheGet_some_spec fs s.cache inst.workspacePath inst.version inst.cssPath cached
        c1 hcg
    refine ⟨E, D, b, ?_, hver, ?_, hfs, hhash, ?_, ?_⟩
    · rw [← hs']
      exact hmem
    · rw [← hs']
      exact hdisk
    · rw [← hs']
      show lookupA (insertA s.utilities inst.workspacePath cached) inst.workspacePath
        = some E.utilities
      rw [hEu]
      exact lookupA_insertA_self _ _ _
    · rw [← hs']
      exact lookupA_insertA_self _ _ _
  | none =>
    cases hres : (parseCSSInstr g fs inst.cssPath).result with
    | error e =>
      rw [efw_miss_err g fs s inst now c1 e hcg hres] at h
      simp at h
    | ok us =>
      rw [efw_miss_ok g fs s inst now c1 us hcg hres] at h
      obtain ⟨content, hfs⟩ := parseCSSInstr_ok_read g fs inst.cssPath us hres
      have hs' :
          ({ s with
              cache := cacheSet fs c1 inst.workspacePath inst.version us inst.cssPath now,
              utilities := insertA s.utilities inst.workspacePath us,
              installations := insertA s.installations inst.workspacePath inst,
              allUtilitiesCache := none } : ExtractorState) = s' := by
        have h2 := congrArg (fun t => t.2.1) h
        simpa using h2
      refine
        ⟨{ version := inst.version, timestamp := now, utilities := us,
              hash := some content },
          { version := inst.version, timestamp := now, utilities := us,
              hash := some content },
          content, ?_, rfl, ?_, hfs, rfl, ?_, ?_⟩
      · rw [← hs']
        show lookupA (cacheSet fs c1 inst.workspacePath inst.version us
          inst.cssPath now).mem inst.workspacePath = _
        simp [cacheSet, calculateFileHash, hfs, lookupA_insertA_self]
      · rw [← hs']
        show lookupA (cacheSet fs c1 inst.workspacePath inst.version us
          inst.cssPath now).disk (inst.workspacePath, inst.version) = _
        simp [cacheSet, calculateFileHash, hfs, lookupA_insertA_self]
      · rw [← hs']
        exact lookupA_insertA_self _ _ _
      · rw [← hs']
        exact lookupA_insertA_self _ _ _

theorem setExtracted_id (s : ExtractorState) (h : s.isExtracted = true) :
    ({ s with isExtracted := true } : ExtractorState) = s := by
  cases s
  simp_all

/-- After a fully successful `extractAll(false)` loop over roots with
distinct workspace paths, every processed root is coherent in the final
state. -/

theorem processRoots_all_coherent (g : Grammar) (fs : FileSys) (insts : List Installation)
    (now : Nat) :
    ∀ (s s1 : ExtractorState) (n : Nat),
      (insts.map (fun i => i.workspacePath)).Nodup →
      processRoots g fs s insts false now = (s1, n, []) →
      ∀ inst ∈ insts, CoherentFor fs s1 inst := by
  induction insts with
  | nil =>
    intro s s1 n _ _ inst h
    simp at h
  | cons i t ih =>
    intro s s1 n hnodup hrun inst hin
    rw [processRoots_cons] at hrun
    rcases hstep : extractForWorkspace g fs s i false now with ⟨o, sStep, k⟩
    rw [hstep] at hrun
    cases o with
    | error e =>
      have hbad := congrArg (fun x => x.2.2) hrun
      simp at hbad
    | ok u =>
      cases u
      have hPR1 : (processRoots g fs sStep t false now).1 = s1 := by
        have h2 := congrArg (fun x => x.1) hrun
        simpa using h2
      have hPRf : (processRoots g fs sStep t false now).2.2 = [] := by
        have h2 := congrArg (fun x => x.2.2) hrun
        simpa using h2
      have hrun' : processRoots g fs sStep t false now
          = (s1, (processRoots g fs sStep t false now).2.1, []) := by
        rw [← hPR1, ← hPRf]
      have hnod' : (t.map (fun i => i.workspacePath)).Nodup :=
        (List.nodup_cons.mp hnodup).2
      have hiNotin : i.workspacePath ∉ t.map (fun i => i.workspacePath) :=
        (List.nodup_cons.mp hnodup).1
      rcases List.mem_cons.mp hin with rfl | hint
      · have hco : CoherentFor fs sStep inst :=
          efw_ok_coherent g fs s inst now sStep k hstep
        have hdisj : ∀ j ∈ t, inst.workspacePath ≠ j.workspacePath := by
          intro j hj hcon
          exact hiNotin (hcon ▸ List.mem_map_of_mem (fun x => x.workspacePath) hj)
        have hco2 := coherent_processRoots_frame g fs sStep t inst false now hdisj hco
        rwa [hPR1] at hco2
      · exact ih sStep s1 _ hnod' hrun' inst hint

theorem runExtractAll_nonempty (g : Grammar) (fs : FileSys) (insts : List Installation)
    (s : ExtractorState) (fr : Bool) (now : Nat) (hemp : insts.isEmpty = false) :
    runExtractAll g fs insts s fr now
      = ({ (processRoots g fs s insts fr now).1 with isExtracted := true },
         (processRoots g fs s insts fr now).2.1,
         (processRoots g fs s insts fr now).2.2) := by
  unfold runExtractAll
  rw [hemp]
  rfl

/-- C4 (amended): idempotence of `extractAll(false)`. If a first
`extractAll(false)` completes with no per-root failure over roots with
distinct workspace paths, then with no filesystem change a second
`extractAll(false)` returns the state unchanged — in particular an
identical Index — performing zero `parseCSS` invocations (every root is a
validated cache hit) and reporting no failures. -/

theorem extractAll_idempotent_amended (g : Grammar) (fs : FileSys)
    (insts : List Installation) (s : ExtractorState) (now now' : Nat)
    (hnodup : (insts.map (fun i => i.workspacePath)).Nodup)
    (hok : (runExtractAll g fs insts s false now).2.2 = []) :
    runExtractAll g fs insts (runExtractAll g fs insts s false now).1 false now'
      = ((runExtractAll g fs insts s false now).1, 0, []) := by
  by_cases hemp : insts.isEmpty = true
  · have h0 : runExtractAll g fs insts s false now = ({ s with isExtracted := true }, 0, []) := by
      unfold runExtractAll
      rw [hemp]
      rfl
    have h1 : runExtractAll g fs insts ({ s with isExtracted := true } : ExtractorState)
        false now' = ({ s with isExtracted := true }, 0, []) := by
      unfold runExtractAll
      rw [hemp]
      rfl
    rw [h0, h1]
  · have hemp' : insts.isEmpty = false := by
      cases h : insts.isEmpty with
      | true => exact absurd h hemp
      | false => rfl
    have hrun1 := runExtractAll_nonempty g fs insts s false now hemp'
    have hfail : (processRoots g fs s insts false now).2.2 = [] := by
      rw [hrun1] at hok
      exact hok
    have hrun' : processRoots g fs s insts false now
        = ((processRoots g fs s insts false now).1,
           (processRoots g fs s insts false now).2.1, []) := by
      rw [← hfail]
    have hcoh := processRoots_all_coherent g fs insts now s
      (processRoots g fs s insts false now).1
      (processRoots g fs s insts false now).2.1 hnodup hrun'
    have hcoh1 : ∀ inst ∈ insts,
        CoherentFor fs (runExtractAll g fs insts s false now).1 inst := by
      intro inst hin
      rw [hrun1]
      exact hcoh inst hin
    have hloop := processRoots_coherent g fs (runExtractAll g fs insts s false now).1
      insts now' hcoh1
    have hextr : (runExtractAll g fs insts s false now).1.isExtracted = true := by
      rw [hrun1]
    have hrun2 := runExtractAll_nonempty g fs insts
      (runExtractAll g fs insts s false now).1 false now' hemp'
    rw [hrun2, hloop]
    show ({ (runExtractAll g fs insts s false now).1 with isExtracted := true }, 0, [])
      = ((runExtractAll g fs insts s false now).1, 0, [])
    rw [setExtracted_id _ hextr]

/-- C4 counterexample: the claim as stated is false. With a single root
whose artifact is malformed, the first `extractAll(false)` completes
(`isExtracted` is set, the error is only reported per root), the
filesystem does not change, yet the second `extractAll(false)` invokes the
parser once — not zero times — because the failed root cached nothing. -/

theorem extractAll_idempotent_counterexample :
    (runExtractAll c4BadGrammar c4Fs [c4Inst] initialExtractorState false 0).1.isExtracted
      = true ∧
    (runExtractAll c4BadGrammar c4Fs [c4Inst]
        (runExtractAll c4BadGrammar c4Fs [c4Inst] initialExtractorState false 0).1
        false 1).2.1 = 1 ∧
    (1 : Nat) ≠ 0 := by
  decide

/-- C4 witness: the amended idempotence theorem applied to a concrete
workspace whose first run succeeds. -/

theorem extractAll_idempotent_amended_witness :
    (([c4Inst].map (fun i => i.workspacePath)).Nodup) ∧
    ((runExtractAll c4OkGrammar c4Fs [c4Inst] initialExtractorState false 0).2.2 = []) ∧
    (runExtractAll c4OkGrammar c4Fs [c4Inst]
        (runExtractAll c4OkGrammar c4Fs [c4Inst] initialExtractorState false 0).1 false 1
      = ((runExtractAll c4OkGrammar c4Fs [c4Inst] initialExtractorState false 0).1, 0, [])) :=
  ⟨by decide, by decide,
    extractAll_idempotent_amended c4OkGrammar c4Fs [c4Inst] initialExtractorState 0 1
      (by decide) (by decide)⟩
